import Mathlib

/-!
The NordVPN status indicator (`extension.js`)

A shallow embedding of the GNOME-shell extension `extension.js`:

* the string primitives of the host language that the extension calls
  (`trim`, `split`, `includes`, `replace`, `toUpperCase`, `match(/\d+/)`), over
  strings represented as lists of characters;
* the command handler `NordVPN` (`connect`, `disconnect`, `getGroups`,
  `getStatus`);
* the panel controller `VPNStatusIndicator` (`enable`, `_connect`,
  `_disconnect`, `_refresh`, `_update`, the timer methods, `destroy`) over an
  explicit world state that also holds the main loop's pending timeout
  sources and the command lines that were spawned.

External command output is an input of the model: `getGroups` and `getStatus`
take the decoded text that `spawn_command_line_sync` returned.

The life of a controller is a run: the module function `enable()` (constructor
and `enable`), followed by events (timer firings, refreshes, user actions,
`destroy`). The properties of the timer and of the backoff are proved along
all runs, those of the menu for all states that renders can reach.
-/

namespace NordVPNStatus

/-- A string of the host language, as the list of its characters. -/
abbrev Str := List Char

/-! ## String primitives -/

/-- White space and line terminators, the characters `String.prototype.trim`
strips. -/
def isWhiteSpace (c : Char) : Bool :=
  let n := c.toNat
  n = 0x9 || n = 0xA || n = 0xB || n = 0xC || n = 0xD || n = 0x20 || n = 0xA0 ||
  n = 0x1680 || (0x2000 ≤ n && n ≤ 0x200A) || n = 0x2028 || n = 0x2029 ||
  n = 0x202F || n = 0x205F || n = 0x3000 || n = 0xFEFF

/-- The method `trimStart`: drop the leading white space. -/
def trimStart (s : Str) : Str := s.dropWhile isWhiteSpace

/-- The method `trimEnd`: drop the trailing white space. -/
def trimEnd (s : Str) : Str := (s.reverse.dropWhile isWhiteSpace).reverse

/-- The method `trim`: drop white space at both ends. -/
def trim (s : Str) : Str := trimEnd (trimStart s)

/-- The method `split(sep)` for a one-character separator: the pieces between
the occurrences of `sep`; the empty string gives one empty piece. -/
def split (sep : Char) : Str → List Str
  | [] => [[]]
  | c :: cs =>
    if c = sep then [] :: split sep cs
    else
      match split sep cs with
      | [] => [[c]]
      | l :: ls => (c :: l) :: ls

/-- The method `includes(pat)`: `pat` occurs in the string. -/
def includes (pat : Str) : Str → Bool
  | [] => pat.isPrefixOf []
  | c :: cs => pat.isPrefixOf (c :: cs) || includes pat cs

/-- The method `replace(pat, rep)` for a string pattern: the leftmost
occurrence of `pat` is replaced by `rep` (which holds no `$` pattern in this
program), the string is unchanged when `pat` does not occur. -/
def replace (pat rep : Str) : Str → Str
  | [] => if pat.isPrefixOf [] then rep else []
  | c :: cs =>
    if pat.isPrefixOf (c :: cs) then rep ++ (c :: cs).drop pat.length
    else c :: replace pat rep cs

/-- The class `\d` of a regular expression: the ten ASCII digits. -/
def isDigit (c : Char) : Bool := 48 ≤ c.toNat && c.toNat ≤ 57

/-- The text matched by `/\d+/`: the leftmost, longest run of digits, or `none`
when the string holds no digit (`match` returns `null`). -/
def matchDigits (s : Str) : Option Str :=
  match s.dropWhile (fun c => !isDigit c) with
  | [] => none
  | d :: ds => some ((d :: ds).takeWhile isDigit)

/-- Upper-case image of one character under `toUpperCase`. ASCII letters are
exact, and so are the characters outside ASCII whose image lies inside ASCII
(dotless i, long s, sharp s and the Latin ligatures). Every other character
outside ASCII has an image with a character outside ASCII; it is kept as
itself here. -/
def upperChar (c : Char) : Str :=
  let n := c.toNat
  if n = 0x131 then ['I']
  else if n = 0x17F then ['S']
  else if n = 0xDF then ['S', 'S']
  else if n = 0xFB00 then ['F', 'F']
  else if n = 0xFB01 then ['F', 'I']
  else if n = 0xFB02 then ['F', 'L']
  else if n = 0xFB03 then ['F', 'F', 'I']
  else if n = 0xFB04 then ['F', 'F', 'L']
  else if n = 0xFB05 then ['S', 'T']
  else if n = 0xFB06 then ['S', 'T']
  else [c.toUpper]

/-- The method `toUpperCase`. -/
def toUpperCase (s : Str) : Str := s.flatMap upperChar

/-! ## Values of the host language -/

/-- Errors the host language raises. -/
inductive JSError where
  /-- A property was read, or a method called, on `undefined` or `null`. -/
  | typeError
  deriving DecidableEq, Repr

/-- The dynamically typed values that a field of the status object can hold. -/
inductive Value where
  /-- The field is absent. -/
  | undefined
  /-- The value `null`. -/
  | null
  /-- A number. -/
  | num (n : Nat)
  /-- A string. -/
  | str (s : Str)
  /-- The array a successful `match` returns; its element 0 is the matched
  text. -/
  | matchArray (text : Str)
  deriving DecidableEq, Repr

deriving instance DecidableEq for Except

/-- Truthiness of the result of `Array.prototype.find` over strings:
`undefined` and the empty string are falsy. -/
def truthy : Option Str → Bool
  | none => false
  | some s => !s.isEmpty

/-- A method call or property read on a value that may be `undefined`: it
raises a `TypeError` when the receiver is `undefined`. -/
def onReceiver {α β : Type} (recv : Option α) (f : α → β) : Except JSError β :=
  match recv with
  | some a => .ok (f a)
  | none => .error JSError.typeError

/-! ## The command handler `NordVPN` -/

/-- An entry of `customGroups`. -/
structure Group where
  name : Str
  label : Str
  deriving DecidableEq, Repr

/-- The static list `customGroups`. -/
def customGroups : List Group :=
  [ { name := "P2P".toList, label := "P2P".toList },
    { name := "Double_VPN".toList, label := "Double VPN".toList },
    { name := "Dedicated_IP".toList, label := "Dedicated IP".toList },
    { name := "Onion_Over_VPN".toList, label := "Onion".toList } ]

/-- The object a call of `getStatus` returns. The fields `serverNumber`,
`country` and `city` are absent (`undefined`) in the disconnected branch. -/
structure VPNStatus where
  connected : Bool
  group : Str
  status : Str
  serverNumber : Value
  country : Value
  city : Value
  fullStatus : Str
  deriving DecidableEq, Repr

/-- The fields of a `NordVPN` object that change: `groups` and `group`. -/
structure NordVPN where
  groups : List Group
  group : Str
  deriving DecidableEq, Repr

namespace NordVPN

/-- The constant `_states.CONNECTED`. -/
def CONNECTED : Str := "CONNECTED".toList

/-- The constructor. -/
def new : NordVPN := { groups := [], group := [] }

/-- The method `connect(group = "")`: remembers the group and spawns
`nordvpn c <group>`; the second component is the command line spawned.
`none` is a call without argument. -/
def connect (self : NordVPN) (group : Option Str) : NordVPN × Str :=
  let group := group.getD []
  ({ self with group := group }, "nordvpn c".toList ++ ' ' :: group)

/-- The method `disconnect()`: forgets the group and spawns `nordvpn d`. -/
def disconnect (self : NordVPN) : NordVPN × Str :=
  ({ self with group := [] }, "nordvpn d".toList)

/-- The class `[\-\r,]` of the regular expression in `getGroups`. -/
def isGroupDelim (c : Char) : Bool := c = '-' || c = '\r' || c = ','

/-- The call `replace(/[\-\r,]+/g, " ")`: every maximal run of hyphens,
carriage returns and commas becomes one space. `inRun` says that the previous
character belonged to such a run. -/
def replaceDelimRuns (inRun : Bool) : Str → Str
  | [] => []
  | c :: cs =>
    if isGroupDelim c then
      if inRun then replaceDelimRuns true cs else ' ' :: replaceDelimRuns true cs
    else c :: replaceDelimRuns false cs

/-- The local `available` of `getGroups`: the tokens of the groups output. -/
def available (data : Str) : List Str :=
  let groups := trim data
  ((split ' ' (replaceDelimRuns false groups)).filter (fun group => !group.isEmpty))

/-- The method `getGroups()`, on the decoded output `data` of
`nordvpn groups`: `groups` becomes the entries of `customGroups` whose name is
among the tokens. -/
def getGroups (self : NordVPN) (data : Str) : NordVPN :=
  let available := available data
  { self with groups := customGroups.filter (fun group => decide (group.name ∈ available)) }

/-- The method `getStatus()`, on the decoded output `data` of
`nordvpn status`. -/
def getStatus (self : NordVPN) (data : Str) : Except JSError VPNStatus := do
  let fullStatus := trim data
  let result := split '\n' fullStatus
  let statusLine := result.find? (fun line => includes "Status:".toList line)
  let status ←
    if truthy statusLine then
      onReceiver statusLine (fun line => trim (replace "Status:".toList [] line))
    else pure "Unknown".toList
  if toUpperCase status = CONNECTED then
    let serverNumberLine := result.find? (fun line => includes "server:".toList line)
    let countryLine := result.find? (fun line => includes "Country:".toList line)
    let cityLine := result.find? (fun line => includes "City:".toList line)
    let serverNumber ←
      if truthy serverNumberLine then
        onReceiver serverNumberLine (fun line =>
          match matchDigits line with
          | some text => Value.matchArray text
          | none => Value.null)
      else pure (Value.str "Unknown".toList)
    let country ←
      if truthy countryLine then
        onReceiver countryLine (fun line => Value.str (trim (replace "Country:".toList [] line)))
      else pure (Value.str "Unknown".toList)
    let city ←
      if truthy cityLine then
        onReceiver cityLine (fun line => Value.str (trim (replace "City:".toList [] line)))
      else pure (Value.str "Unknown".toList)
    let group ←
      if (customGroups.find? (fun group => group.name = self.group)).isSome then
        onReceiver (customGroups.find? (fun group => group.name = self.group)) Group.name
      else pure "Standard".toList
    pure
      { connected := true
        group := group
        status := status
        serverNumber := serverNumber
        country := country
        city := city
        fullStatus := fullStatus }
  else
    pure
      { connected := false
        group := "Standard".toList
        status := status
        serverNumber := Value.undefined
        country := Value.undefined
        city := Value.undefined
        fullStatus := fullStatus }

end NordVPN

/-! ## The panel controller `VPNStatusIndicator` -/

/-- What an action item of the menu runs when it is activated. -/
inductive Callback where
  /-- The bound method `this._connect`. -/
  | connect
  /-- The closure that calls `this._connect(group.name)`. -/
  | connectTo (name : Str)
  /-- The bound method `this._disconnect`. -/
  | disconnect
  deriving DecidableEq, Repr

/-- An action item that `addAction` put into the submenu; `id` stands for the
identity of the item object. -/
structure MenuItem where
  id : Nat
  label : Str
  callback : Callback
  deriving DecidableEq, Repr

/-- A timeout source of the main loop: its id and its interval in seconds. The
callback of every source of this program is `_refresh`. -/
structure Source where
  id : Nat
  interval : Nat
  deriving DecidableEq, Repr

/-- The controller object together with the part of the host it acts on.

* `indicatorVisible` is `_indicator.visible`, `itemLabel` is
  `_item.label.text`, `connectionGroup` and `connectionDetails` are the label
  texts of the two fixed menu items, `actions` are the action items of
  `_item.menu` in menu order (they follow the fixed items);
* `_disconnectAction` and `_connectAction` hold item identities, `none` being
  `undefined` or `null`;
* `_timerStep` is 0 as long as the field is unset (from the constructor to the
  first `resetTimer`);
* `_timer` is the id of the source last armed, `none` once deleted;
* `mainloop` are the pending timeout sources, `lastSource` the last source id
  the main loop handed out, `spawned` the command lines spawned so far,
  `destroyed` tells that `destroy` tore the widgets down. -/
structure VPNStatusIndicator where
  indicatorVisible : Bool
  itemLabel : Str
  connectionGroup : Str
  connectionDetails : Str
  actions : List MenuItem
  _disconnectAction : Option Nat
  _connectAction : Option (List Nat)
  vpnHandler : NordVPN
  _timerStep : Nat
  _timer : Option Nat
  mainloop : List Source
  lastSource : Nat
  spawned : List Str
  destroyed : Bool
  deriving DecidableEq, Repr

namespace VPNStatusIndicator

/-- The constructor: hidden indicator, the label "NordVPN", two empty text
items, no action item, a fresh handler, no timer. -/
def new : VPNStatusIndicator :=
  { indicatorVisible := false
    itemLabel := "NordVPN".toList
    connectionGroup := []
    connectionDetails := []
    actions := []
    _disconnectAction := none
    _connectAction := none
    vpnHandler := NordVPN.new
    _timerStep := 0
    _timer := none
    mainloop := []
    lastSource := 0
    spawned := []
    destroyed := false }

/-- An identity no item of the list has. -/
def freshItem (items : List MenuItem) : Nat := (items.map MenuItem.id).foldr max 0 + 1

/-- The call `_item.menu.addAction(label, callback)`: appends a new item and
returns its identity. -/
def addAction (self : VPNStatusIndicator) (label : Str) (callback : Callback) :
    VPNStatusIndicator × Nat :=
  let id := freshItem self.actions
  ({ self with actions := self.actions ++ [{ id := id, label := label, callback := callback }] }, id)

/-- The call `item.destroy()` on the item of identity `id`: it leaves the menu. -/
def destroyItem (self : VPNStatusIndicator) (id : Nat) : VPNStatusIndicator :=
  { self with actions := self.actions.filter (fun item => item.id ≠ id) }

/-- The method `resetTimer`. -/
def resetTimer (self : VPNStatusIndicator) : VPNStatusIndicator :=
  { self with _timerStep := 1 }

/-- The call `Mainloop.timeout_add_seconds(interval, ...)`: a new pending
source, whose id is positive and was never handed out before. -/
def timeout_add_seconds (self : VPNStatusIndicator) (interval : Nat) :
    VPNStatusIndicator × Nat :=
  let id := max self.lastSource ((self.mainloop.map Source.id).foldr max 0) + 1
  ({ self with mainloop := self.mainloop ++ [{ id := id, interval := interval }],
               lastSource := id }, id)

/-- The call `Mainloop.source_remove(id)`. -/
def source_remove (self : VPNStatusIndicator) (id : Nat) : VPNStatusIndicator :=
  { self with mainloop := self.mainloop.filter (fun src => src.id ≠ id) }

/-- The method `startTimer`: arms a timer with the current `_timerStep`, then
doubles `_timerStep` and caps it at 30. -/
def startTimer (self : VPNStatusIndicator) : VPNStatusIndicator :=
  let (self, id) := self.timeout_add_seconds self._timerStep
  let self := { self with _timer := some id }
  let self := { self with _timerStep := self._timerStep * 2 }
  { self with _timerStep := if self._timerStep > 30 then 30 else self._timerStep }

/-- The method `stopTimer`: when `_timer` is truthy, removes that source and
deletes the field. -/
def stopTimer (self : VPNStatusIndicator) : VPNStatusIndicator :=
  match self._timer with
  | some id =>
    if id ≠ 0 then { self.source_remove id with _timer := none } else self
  | none => self

/-- The method `_connect(group = "")`; `none` is a call without argument. -/
def _connect (self : VPNStatusIndicator) (group : Option Str) : VPNStatusIndicator :=
  let group := group.getD []
  let self := self.stopTimer
  let (handler, command) := self.vpnHandler.connect (some group)
  let self := { self with vpnHandler := handler, spawned := self.spawned ++ [command] }
  let self := self.resetTimer
  self.startTimer

/-- The method `_disconnect()`. -/
def _disconnect (self : VPNStatusIndicator) : VPNStatusIndicator :=
  let self := self.stopTimer
  let (handler, command) := self.vpnHandler.disconnect
  let self := { self with vpnHandler := handler, spawned := self.spawned ++ [command] }
  let self := self.resetTimer
  self.startTimer

/-- The body of the loop over `vpnHandler.groups` in `_update`: one more
"Connect to" action, pushed onto `_connectAction`. -/
def pushGroupAction (self : VPNStatusIndicator) (group : Group) : VPNStatusIndicator :=
  let (self, id) :=
    self.addAction ("Connect to ".toList ++ group.label) (Callback.connectTo group.name)
  { self with _connectAction := some ((self._connectAction.getD []) ++ [id]) }

/-- The branch `if (vpnStatus.connected)` of `_update`: make sure of the
"Disconnect" action, destroy the connect actions. -/
def renderConnected (self : VPNStatusIndicator) : VPNStatusIndicator :=
  let self :=
    match self._disconnectAction with
    | none =>
      let (self, id) := self.addAction "Disconnect".toList Callback.disconnect
      { self with _disconnectAction := some id }
    | some _ => self
  match self._connectAction with
  | some items => { items.foldl destroyItem self with _connectAction := none }
  | none => self

/-- The `else` branch of `_update`: make sure of the connect actions, destroy
the "Disconnect" action. -/
def renderDisconnected (self : VPNStatusIndicator) : VPNStatusIndicator :=
  let self :=
    match self._connectAction with
    | none =>
      let self := { self with _connectAction := some [] }
      let (self, id) := self.addAction "Connect".toList Callback.connect
      let self := { self with _connectAction := some ((self._connectAction.getD []) ++ [id]) }
      self.vpnHandler.groups.foldl pushGroupAction self
    | some _ => self
  match self._disconnectAction with
  | some id => { self.destroyItem id with _disconnectAction := none }
  | none => self

/-- The method `_update(vpnStatus)`. -/
def _update (self : VPNStatusIndicator) (vpnStatus : VPNStatus) : VPNStatusIndicator :=
  let self := { self with indicatorVisible := vpnStatus.connected }
  let self := { self with itemLabel := "NordVPN ".toList ++ vpnStatus.status }
  let self := if vpnStatus.connected then self.renderConnected else self.renderDisconnected
  let self := { self with connectionGroup := vpnStatus.group }
  { self with connectionDetails := vpnStatus.fullStatus }

/-- The method `_refresh()`, on the output `data` of the status command. -/
def _refresh (self : VPNStatusIndicator) (data : Str) : Except JSError VPNStatusIndicator := do
  let self := self.stopTimer
  let vpnStatus ← self.vpnHandler.getStatus data
  let self := self._update vpnStatus
  pure self.startTimer

/-- The method `enable()`, on the outputs of the groups and status commands. -/
def enable (self : VPNStatusIndicator) (groupsData statusData : Str) :
    Except JSError VPNStatusIndicator := do
  let self := { self with vpnHandler := self.vpnHandler.getGroups groupsData }
  let self := self.resetTimer
  self._refresh statusData

/-- The method `destroy()`. -/
def destroy (self : VPNStatusIndicator) : VPNStatusIndicator :=
  let self := self.stopTimer
  { self with destroyed := true }

/-- The main loop dispatches the pending source `id`: its callback `_refresh`
runs on the status output `data`, and since the callback returns `undefined`
the main loop then drops the source. Nothing happens when no source `id` is
pending. -/
def dispatch (self : VPNStatusIndicator) (id : Nat) (data : Str) :
    Except JSError VPNStatusIndicator :=
  if self.mainloop.any (fun src => src.id = id) then do
    let self ← self._refresh data
    pure (self.source_remove id)
  else pure self

/-- The next timer firing: the main loop dispatches its first pending source. -/
def timerFired (self : VPNStatusIndicator) (data : Str) : Except JSError VPNStatusIndicator :=
  match self.mainloop with
  | [] => pure self
  | src :: _ => self.dispatch src.id data

/-- The interval of the timer that is armed: the pending source that `_timer`
names. -/
def armedInterval (self : VPNStatusIndicator) : Option Nat :=
  match self._timer with
  | some id => (self.mainloop.find? (fun src => src.id = id)).map Source.interval
  | none => none

/-- The state after `enable()` on a new controller followed by `n` timer
firings with no user action; `statusData k` is the output of the status
command at the `k`-th refresh. -/
def afterPolls (groupsData : Str) (statusData : Nat → Str) :
    Nat → Except JSError VPNStatusIndicator
  | 0 => new.enable groupsData (statusData 0)
  | n + 1 => do
    let self ← afterPolls groupsData statusData n
    self.timerFired (statusData (n + 1))

end VPNStatusIndicator

/-! ## Notions used to state the properties -/

/-- The timer part of the state: step, timer handle, pending sources and the
last source id. -/
def VPNStatusIndicator.timerPart (self : VPNStatusIndicator) :
    Nat × Option Nat × List Source × Nat :=
  (self._timerStep, self._timer, self.mainloop, self.lastSource)

/-- The lines of the status text: the trimmed output, split at line feeds
(the local `result` of `getStatus`). -/
def statusLines (data : Str) : List Str := split '\n' (trim data)

/-- The first line of the status text that contains `marker`. -/
def fieldLine (marker : Str) (data : Str) : Option Str :=
  (statusLines data).find? (fun line => includes marker line)

/-- The status word: the first line that contains "Status:", with "Status:"
removed and trimmed; "Unknown" when there is no such line. -/
def statusWord (data : Str) : Str :=
  match fieldLine "Status:".toList data with
  | some line => trim (replace "Status:".toList [] line)
  | none => "Unknown".toList

/-- The group named in a connected status: the remembered group when it is the
name of a static group, "Standard" otherwise. -/
def groupField (self : NordVPN) : Str :=
  match customGroups.find? (fun group => group.name = self.group) with
  | some group => group.name
  | none => "Standard".toList

/-- The value of a field that is read off the first line containing `marker`,
"Unknown" when no line contains it. -/
def textField (marker : Str) (data : Str) : Value :=
  match fieldLine marker data with
  | some line => Value.str (trim (replace marker [] line))
  | none => Value.str "Unknown".toList

/-- The value of `serverNumber` in a connected status. -/
def serverNumberField (data : Str) : Value :=
  match fieldLine "server:".toList data with
  | some line =>
    match matchDigits line with
    | some text => Value.matchArray text
    | none => Value.null
  | none => Value.str "Unknown".toList

/-- Equality of two strings ignoring the case of the ASCII letters. -/
def eqIgnoreCase (a b : Str) : Prop := a.map Char.toLower = b.map Char.toLower

instance (a b : Str) : Decidable (eqIgnoreCase a b) := by
  unfold eqIgnoreCase; infer_instance

/-- An upper-case ASCII letter other than F, I and S: no character outside
ASCII has it in its upper-case image. -/
def isPlainUpper (d : Char) : Bool :=
  65 ≤ d.toNat && d.toNat ≤ 90 && d.toNat != 70 && d.toNat != 73 && d.toNat != 83

/-- The lines joined by line feeds. -/
def joinLines : List Str → Str
  | [] => []
  | [l] => l
  | l :: l' :: ls => l ++ '\n' :: joinLines (l' :: ls)

/-- No white space at either end. -/
def isTrimmed (s : Str) : Bool :=
  !(s.head?.any isWhiteSpace) && !(s.getLast?.any isWhiteSpace)

/-- A well-formed connected status text: lines joined by line feeds, possibly
with white space around the whole, among them the lines `Status: Connected`,
`Country: X`, `City: Y` and `<pre>server: <digits>`, where each of the four
markers occurs in its own line only, `X` and `Y` carry no outer white space,
`pre` holds no digit and `digits` is a non-empty run of digits. -/
def WellFormedConnected (data X Y pre digits : Str) : Prop :=
  ∃ (ws1 ws2 : Str) (lines : List Str),
    data = ws1 ++ joinLines lines ++ ws2 ∧
    (∀ c ∈ ws1, isWhiteSpace c = true) ∧ (∀ c ∈ ws2, isWhiteSpace c = true) ∧
    isTrimmed (joinLines lines) = true ∧
    (∀ l ∈ lines, '\n' ∉ l) ∧
    "Status: Connected".toList ∈ lines ∧
    "Country: ".toList ++ X ∈ lines ∧
    "City: ".toList ++ Y ∈ lines ∧
    pre ++ "server: ".toList ++ digits ∈ lines ∧
    (∀ l ∈ lines, "Status:".toList <:+: l → l = "Status: Connected".toList) ∧
    (∀ l ∈ lines, "Country:".toList <:+: l → l = "Country: ".toList ++ X) ∧
    (∀ l ∈ lines, "City:".toList <:+: l → l = "City: ".toList ++ Y) ∧
    (∀ l ∈ lines, "server:".toList <:+: l → l = pre ++ "server: ".toList ++ digits) ∧
    isTrimmed X = true ∧ isTrimmed Y = true ∧
    (∀ c ∈ pre, isDigit c = false) ∧ digits ≠ [] ∧ (∀ c ∈ digits, isDigit c = true)

/-- The pieces of a text between its delimiter characters; the empty text has
one empty piece. -/
def pieces (delim : Char → Bool) : Str → List Str
  | [] => [[]]
  | c :: cs =>
    if delim c then [] :: pieces delim cs
    else
      match pieces delim cs with
      | [] => [[c]]
      | l :: ls => (c :: l) :: ls

/-- The text `tok` occurs in `text` as a token for the delimiters `delim`: a
non-empty stretch without delimiter that has a delimiter or an end of the text
on either side. -/
def OccursAsToken (delim : Char → Bool) (tok text : Str) : Prop :=
  tok ≠ [] ∧ (∀ c ∈ tok, delim c = false) ∧
    ∃ pre post, text = pre ++ tok ++ post ∧
      (∀ c, pre.getLast? = some c → delim c = true) ∧
      (∀ c, post.head? = some c → delim c = true)

/-- The delimiters of the groups output as `getGroups` tokenizes it: comma,
hyphen, carriage return and space. -/
def isTokenDelim (c : Char) : Bool := c = ',' || c = '-' || c = '\r' || c = ' '

/-- The delimiters "commas, hyphens and any white space character (space, tab,
newline, carriage return)". -/
def isCommaHyphenOrSpace (c : Char) : Bool :=
  c = ',' || c = '-' || c = ' ' || c = '\t' || c = '\n' || c = '\r'

/-- The first line of the output, as the command gave it, that contains
`marker`. -/
def outputLine (marker : Str) (data : Str) : Option Str :=
  (split '\n' data).find? (fun line => includes marker line)

/-- The line `y` is the line `x` with white space added at its ends. -/
def Padded (x y : Str) : Prop :=
  ∃ u v : Str, (∀ c ∈ u, isWhiteSpace c = true) ∧ (∀ c ∈ v, isWhiteSpace c = true) ∧
    y = u ++ x ++ v

/-- A marker: a non-empty text without white space. -/
def IsMarker (m : Str) : Prop := m ≠ [] ∧ ∀ c ∈ m, isWhiteSpace c = false

/-- The two ways of taking the lines of a status text: from the output as it
came, or from the trimmed output. -/
def IsLineView (view : Str → List Str) : Prop := view = split '\n' ∨ view = statusLines

/-- What happens to a controller once the extension is enabled. -/
inductive Event where
  /-- The main loop fires the pending poll timer; `data` is the output of the
  status command at that refresh. -/
  | timerFired (data : Str)
  /-- A call of `_refresh()` that no timer drives. -/
  | refresh (data : Str)
  /-- The user activates a connect action: `_connect(group)`. -/
  | connect (group : Option Str)
  /-- The user activates the disconnect action: `_disconnect()`. -/
  | disconnect
  /-- The extension is disabled: `destroy()`. -/
  | destroy
  deriving DecidableEq, Repr

/-- The controller after one event. -/
def VPNStatusIndicator.step (self : VPNStatusIndicator) :
    Event → Except JSError VPNStatusIndicator
  | Event.timerFired data => self.timerFired data
  | Event.refresh data => self._refresh data
  | Event.connect group => pure (self._connect group)
  | Event.disconnect => pure self._disconnect
  | Event.destroy => pure self.destroy

/-- The controller after a sequence of events. -/
def VPNStatusIndicator.runFrom (self : VPNStatusIndicator) :
    List Event → Except JSError VPNStatusIndicator
  | [] => pure self
  | e :: es => do
    let next ← self.step e
    next.runFrom es

/-- The module function `enable()`, which constructs the controller and calls
its `enable()`, followed by a sequence of events. -/
def run (groupsData statusData : Str) (events : List Event) :
    Except JSError VPNStatusIndicator := do
  let self ← VPNStatusIndicator.new.enable groupsData statusData
  self.runFrom events

/-- The values the backoff takes. -/
def backoffValues : List Nat := [1, 2, 4, 8, 16, 30]

/-- The part of the state that decides what `_update` does to the menu: the
action items, the two action handles and the known groups. -/
def VPNStatusIndicator.menuPart (self : VPNStatusIndicator) :
    List MenuItem × Option Nat × Option (List Nat) × List Group :=
  (self.actions, self._disconnectAction, self._connectAction, self.vpnHandler.groups)

/-- The action items as the user sees them: label and callback, in menu
order. -/
def VPNStatusIndicator.menuEntries (self : VPNStatusIndicator) : List (Str × Callback) :=
  self.actions.map (fun item => (item.label, item.callback))

/-- The connect actions for the known groups: "Connect", then one
"Connect to <label>" per group. -/
def connectEntries (groups : List Group) : List (Str × Callback) :=
  ("Connect".toList, Callback.connect) ::
    groups.map (fun group => ("Connect to ".toList ++ group.label, Callback.connectTo group.name))

/-- The controller after the constructor and `getGroups` on the groups output
`groupsData`: the state in which the first render runs. -/
def constructed (groupsData : Str) : VPNStatusIndicator :=
  { VPNStatusIndicator.new with
    vpnHandler := VPNStatusIndicator.new.vpnHandler.getGroups groupsData }

/-- The controller states in which `_update` can be called: the state after
the constructor and `getGroups` (nothing rendered yet), the state after any
render, and every state that differs from one of these in fields other than
the menu part (the timer methods, `_connect`, `_disconnect` and `destroy`
change only such fields). -/
inductive MenuReachable : VPNStatusIndicator → Prop where
  | initial (groupsData : Str) : MenuReachable (constructed groupsData)
  | update (s : VPNStatusIndicator) (vpnStatus : VPNStatus) :
    MenuReachable s → MenuReachable (s._update vpnStatus)
  | other (s t : VPNStatusIndicator) :
    MenuReachable s → t.menuPart = s.menuPart → MenuReachable t

/-- The greatest identity among the items, 0 when there is none. -/
def maxItem (items : List MenuItem) : Nat := (items.map MenuItem.id).foldr max 0

/-- The state after the block of `_update` that builds the connect actions:
"Connect" is added and `_connectAction` set to hold it, then the loop over the
known groups runs. -/
def VPNStatusIndicator.withConnectActions (s : VPNStatusIndicator) : VPNStatusIndicator :=
  s.vpnHandler.groups.foldl VPNStatusIndicator.pushGroupAction
    { s with
      actions := s.actions ++
        [{ id := VPNStatusIndicator.freshItem s.actions, label := "Connect".toList,
           callback := Callback.connect }],
      _connectAction := some [VPNStatusIndicator.freshItem s.actions] }

/-- A disconnected status, as `getStatus` returns it for the output
"Status: Disconnected". -/
def disconnectedStatus : VPNStatus :=
  { connected := false
    group := "Standard".toList
    status := "Disconnected".toList
    serverNumber := Value.undefined
    country := Value.undefined
    city := Value.undefined
    fullStatus := "Status: Disconnected".toList }

/-- A connected status, as `getStatus` returns it for the output
"Status: Connected". -/
def connectedStatus : VPNStatus :=
  { connected := true
    group := "Standard".toList
    status := "Connected".toList
    serverNumber := Value.str "Unknown".toList
    country := Value.str "Unknown".toList
    city := Value.str "Unknown".toList
    fullStatus := "Status: Connected".toList }

/-- Nothing is rendered yet: no action item, no handle. -/
def ShowsNothing (s : VPNStatusIndicator) : Prop :=
  s._disconnectAction = none ∧ s._connectAction = none ∧ s.actions = []

/-- The menu holds the one "Disconnect" action, which `_disconnectAction` names,
and no connect action. -/
def ShowsDisconnect (s : VPNStatusIndicator) : Prop :=
  ∃ d, s._disconnectAction = some d ∧ s._connectAction = none ∧
    s.actions = [{ id := d, label := "Disconnect".toList, callback := Callback.disconnect }]

/-- The menu holds the connect actions of the known groups, which
`_connectAction` names in menu order, and no "Disconnect" action. -/
def ShowsConnect (s : VPNStatusIndicator) : Prop :=
  s._disconnectAction = none ∧ s._connectAction = some (s.actions.map MenuItem.id) ∧
    s.menuEntries = connectEntries s.vpnHandler.groups

/-- The menu is in one of the three modes, and the known groups are static
groups in their declared order. -/
def MenuInv (s : VPNStatusIndicator) : Prop :=
  s.vpnHandler.groups.Sublist customGroups ∧
    (ShowsNothing s ∨ ShowsDisconnect s ∨ ShowsConnect s)

/-- A call on the handler. -/
inductive Call where
  /-- The call `connect(group)`; `none` is a call without argument. -/
  | connect (group : Option Str)
  /-- The call `disconnect()`. -/
  | disconnect
  deriving DecidableEq, Repr

/-- The handler after one call. -/
def NordVPN.call (self : NordVPN) : Call → NordVPN
  | Call.connect group => (self.connect group).1
  | Call.disconnect => self.disconnect.1

/-- The handler after a sequence of calls. -/
def NordVPN.calls (self : NordVPN) (cs : List Call) : NordVPN := cs.foldl NordVPN.call self

/-- What the user is shown: indicator visibility, primary label, group and
detail texts, and the action items with their handles. -/
def VPNStatusIndicator.display (self : VPNStatusIndicator) :
    Bool × Str × Str × Str × List MenuItem × Option Nat × Option (List Nat) :=
  (self.indicatorVisible, self.itemLabel, self.connectionGroup, self.connectionDetails,
    self.actions, self._disconnectAction, self._connectAction)

/-- The timer bookkeeping is sound: either no timer is pending and `_timer` is
unset, or exactly one source is pending and `_timer` names it; its id is
positive and the main loop has handed it out. -/
def TimerInv (s : VPNStatusIndicator) : Prop :=
  (s._timer = none ∧ s.mainloop = []) ∨
    ∃ i interval, i ≠ 0 ∧ i ≤ s.lastSource ∧ s._timer = some i ∧
      s.mainloop = [{ id := i, interval := interval }]

/-- The backoff value and the interval of every pending timer are backoff
values. -/
def BackoffInv (s : VPNStatusIndicator) : Prop :=
  s._timerStep ∈ backoffValues ∧ ∀ src ∈ s.mainloop, src.interval ∈ backoffValues

/-- The first of the lines that contains `marker`. -/
def firstLineWith (marker : Str) (lines : List Str) : Option Str :=
  lines.find? (fun line => includes marker line)

/-! ## The timer fields are a frame of rendering -/

theorem timerPart_foldl_destroyItem (items : List Nat) (self : VPNStatusIndicator) :
    (items.foldl VPNStatusIndicator.destroyItem self).timerPart = self.timerPart := by
  induction items generalizing self with
  | nil => rfl
  | cons i is ih => simp only [List.foldl_cons]; rw [ih]; rfl

theorem timerPart_foldl_pushGroupAction (groups : List Group) (self : VPNStatusIndicator) :
    (groups.foldl VPNStatusIndicator.pushGroupAction self).timerPart = self.timerPart := by
  induction groups generalizing self with
  | nil => rfl
  | cons g gs ih => simp only [List.foldl_cons]; rw [ih]; rfl

theorem timerPart_renderConnected (self : VPNStatusIndicator) :
    self.renderConnected.timerPart = self.timerPart := by
  unfold VPNStatusIndicator.renderConnected
  cases hda : self._disconnectAction <;> simp only [] <;> split <;>
    first
    | rfl
    | (rename_i items _
       exact (timerPart_foldl_destroyItem items _).trans rfl)

theorem timerPart_renderDisconnected (self : VPNStatusIndicator) :
    self.renderDisconnected.timerPart = self.timerPart := by
  unfold VPNStatusIndicator.renderDisconnected
  cases hca : self._connectAction <;> simp only [] <;> split <;>
    first
    | rfl
    | exact (timerPart_foldl_pushGroupAction _ _).trans rfl

theorem timerPart_update (self : VPNStatusIndicator) (vpnStatus : VPNStatus) :
    (self._update vpnStatus).timerPart = self.timerPart := by
  unfold VPNStatusIndicator._update
  simp only []
  split
  · exact (timerPart_renderConnected _).trans rfl
  · exact (timerPart_renderDisconnected _).trans rfl

/-! ## What `getStatus` returns -/

theorem includes_ne_nil {pat line : Str} (hpat : pat ≠ []) (h : includes pat line = true) :
    line ≠ [] := by
  rintro rfl
  cases pat with
  | nil => exact hpat rfl
  | cons p ps => simp [includes, List.isPrefixOf] at h

theorem truthy_find_includes {pat : Str} (hpat : pat ≠ []) (lines : List Str) :
    truthy (lines.find? (fun line => includes pat line)) =
      (lines.find? (fun line => includes pat line)).isSome := by
  cases h : lines.find? (fun line => includes pat line) with
  | none => rfl
  | some line =>
    have hinc : includes pat line = true := by
      have := List.find?_some h
      simpa using this
    have hne := includes_ne_nil hpat hinc
    cases line with
    | nil => exact absurd rfl hne
    | cons c cs => rfl

/-- The method `getStatus` never raises, and its result in closed form. -/
theorem getStatus_eq (self : NordVPN) (data : Str) :
    self.getStatus data = Except.ok
      (if toUpperCase (statusWord data) = NordVPN.CONNECTED then
        { connected := true
          group := groupField self
          status := statusWord data
          serverNumber := serverNumberField data
          country := textField "Country:".toList data
          city := textField "City:".toList data
          fullStatus := trim data }
      else
        { connected := false
          group := "Standard".toList
          status := statusWord data
          serverNumber := Value.undefined
          country := Value.undefined
          city := Value.undefined
          fullStatus := trim data }) := by
  have hS : ("Status:".toList : Str) ≠ [] := by decide
  have hs : ("server:".toList : Str) ≠ [] := by decide
  have hC : ("Country:".toList : Str) ≠ [] := by decide
  have hY : ("City:".toList : Str) ≠ [] := by decide
  unfold NordVPN.getStatus
  simp only [truthy_find_includes hS, truthy_find_includes hs, truthy_find_includes hC,
    truthy_find_includes hY]
  simp only [statusWord, textField, serverNumberField, groupField, fieldLine, statusLines]
  generalize (split '\n' (trim data)).find? (fun line => includes "Status:".toList line) = oS
  generalize (split '\n' (trim data)).find? (fun line => includes "server:".toList line) = os
  generalize (split '\n' (trim data)).find? (fun line => includes "Country:".toList line) = oC
  generalize (split '\n' (trim data)).find? (fun line => includes "City:".toList line) = oY
  generalize customGroups.find? (fun group => decide (group.name = self.group)) = oG
  cases oS <;> cases os <;> cases oC <;> cases oY <;> cases oG <;>
    simp only [bind, Except.bind, pure, Except.pure, onReceiver, Option.isSome, if_true,
      Bool.false_eq_true, if_false] <;>
    split <;> rfl

/-! ## Timers -/

theorem id_le_foldr_max (l : List Source) (src : Source) (h : src ∈ l) :
    src.id ≤ (l.map Source.id).foldr max 0 := by
  induction l with
  | nil => cases h
  | cons a l ih =>
    simp only [List.map_cons, List.foldr_cons]
    rcases List.mem_cons.mp h with rfl | h
    · exact le_max_left _ _
    · exact le_trans (ih h) (le_max_right _ _)

theorem find?_append_fresh (l : List Source) (i interval : Nat)
    (h : (l.map Source.id).foldr max 0 < i) :
    (l ++ [(Source.mk i interval)]).find? (fun (src : Source) => decide (src.id = i)) =
      some (Source.mk i interval) := by
  induction l with
  | nil => simp
  | cons a l ih =>
    have ha : a.id ≤ ((a :: l).map Source.id).foldr max 0 :=
      id_le_foldr_max (a :: l) a (List.mem_cons_self _ _)
    have hne : a.id ≠ i := by omega
    have hl : (l.map Source.id).foldr max 0 < i := by
      simp only [List.map_cons, List.foldr_cons] at h
      exact lt_of_le_of_lt (le_max_right _ _) h
    simp [List.find?_cons, hne, ih hl]

/-- The timer part after `startTimer`, from the timer part before. -/
theorem timerPart_startTimer (self : VPNStatusIndicator) :
    self.startTimer.timerPart =
      (if self._timerStep * 2 > 30 then 30 else self._timerStep * 2,
       some (max self.lastSource ((self.mainloop.map Source.id).foldr max 0) + 1),
       self.mainloop ++
        [{ id := max self.lastSource ((self.mainloop.map Source.id).foldr max 0) + 1,
           interval := self._timerStep }],
       max self.lastSource ((self.mainloop.map Source.id).foldr max 0) + 1) := rfl

theorem armedInterval_startTimer (self : VPNStatusIndicator) :
    self.startTimer.armedInterval = some self._timerStep := by
  have h := timerPart_startTimer self
  simp only [VPNStatusIndicator.timerPart, Prod.mk.injEq] at h
  obtain ⟨-, h2, h3, -⟩ := h
  unfold VPNStatusIndicator.armedInterval
  rw [h2, h3]
  simp only []
  rw [find?_append_fresh]
  · rfl
  · have := le_max_right self.lastSource ((self.mainloop.map Source.id).foldr max 0)
    omega

theorem refresh_eq (self : VPNStatusIndicator) (data : Str) :
    ∃ st, self.vpnHandler.getStatus data = Except.ok st ∧
      self._refresh data = Except.ok ((self.stopTimer._update st).startTimer) := by
  have hh : self.stopTimer.vpnHandler = self.vpnHandler := by
    unfold VPNStatusIndicator.stopTimer
    split
    · split <;> rfl
    · rfl
  refine ⟨_, getStatus_eq self.vpnHandler data, ?_⟩
  unfold VPNStatusIndicator._refresh
  simp only [hh, getStatus_eq]
  rfl

theorem timerPart_stopTimer_armed (self : VPNStatusIndicator) (i step interval : Nat)
    (hi : i ≠ 0) (h : self.timerPart = (step, some i, [Source.mk i interval], i)) :
    self.stopTimer.timerPart = (step, none, [], i) := by
  simp only [VPNStatusIndicator.timerPart, Prod.mk.injEq] at h
  obtain ⟨h1, h2, h3, h4⟩ := h
  unfold VPNStatusIndicator.stopTimer
  rw [h2]
  simp only [hi, ne_eq, not_false_eq_true, if_true]
  simp [VPNStatusIndicator.timerPart, VPNStatusIndicator.source_remove, h1, h3, h4]

theorem timerPart_startTimer_congr (a b : VPNStatusIndicator) (h : a.timerPart = b.timerPart) :
    a.startTimer.timerPart = b.startTimer.timerPart := by
  rw [timerPart_startTimer, timerPart_startTimer]
  simp only [VPNStatusIndicator.timerPart, Prod.mk.injEq] at h
  obtain ⟨h1, -, h3, h4⟩ := h
  rw [h1, h3, h4]

theorem armedInterval_of_timerPart (self : VPNStatusIndicator) (i step interval : Nat)
    (h : self.timerPart = (step, some i, [Source.mk i interval], i)) :
    self.armedInterval = some interval := by
  simp only [VPNStatusIndicator.timerPart, Prod.mk.injEq] at h
  obtain ⟨-, h2, h3, -⟩ := h
  unfold VPNStatusIndicator.armedInterval
  rw [h2, h3]
  simp

/-- The timer part after `enable()` and `n` timer firings: one pending source,
armed with `min (2 ^ n) 30`, and the step `min (2 ^ (n + 1)) 30` for the next
arming. -/
theorem afterPolls_timerPart (groupsData : Str) (statusData : Nat → Str) (n : Nat) :
    ∃ s, VPNStatusIndicator.afterPolls groupsData statusData n = Except.ok s ∧
      s.timerPart =
        (min (2 ^ (n + 1)) 30, some (n + 1), [Source.mk (n + 1) (min (2 ^ n) 30)], n + 1) := by
  induction n with
  | zero =>
    unfold VPNStatusIndicator.afterPolls VPNStatusIndicator.enable
    simp only []
    obtain ⟨st, -, hr⟩ := refresh_eq
      ({ VPNStatusIndicator.new with
          vpnHandler := VPNStatusIndicator.new.vpnHandler.getGroups groupsData }.resetTimer)
      (statusData 0)
    refine ⟨_, hr, ?_⟩
    rw [timerPart_startTimer_congr _ _ (timerPart_update _ st)]
    rfl
  | succ n ih =>
    obtain ⟨s, hs, ht⟩ := ih
    have ht0 := ht
    simp only [VPNStatusIndicator.timerPart, Prod.mk.injEq] at ht0
    obtain ⟨h1, h2, h3, h4⟩ := ht0
    obtain ⟨st, -, hr⟩ := refresh_eq s (statusData (n + 1))
    have hstop := timerPart_stopTimer_armed s (n + 1) _ _ (Nat.succ_ne_zero n) ht
    have hstart : ((s.stopTimer._update st).startTimer).timerPart =
        (min (2 ^ (n + 1 + 1)) 30, some (n + 1 + 1),
          [Source.mk (n + 1 + 1) (min (2 ^ (n + 1)) 30)], n + 1 + 1) := by
      rw [timerPart_startTimer_congr _ _ (timerPart_update _ st), timerPart_startTimer]
      simp only [VPNStatusIndicator.timerPart, Prod.mk.injEq] at hstop
      obtain ⟨g1, g2, g3, g4⟩ := hstop
      rw [g1, g3, g4]
      have hp : 2 ^ (n + 1 + 1) = 2 * 2 ^ (n + 1) := by rw [pow_succ]; ring
      simp only [List.map_nil, List.foldr_nil, List.nil_append, Nat.max_zero, Prod.mk.injEq,
        and_true, true_and]
      rw [hp]
      split <;> omega
    refine ⟨((s.stopTimer._update st).startTimer).source_remove (n + 1), ?_, ?_⟩
    · unfold VPNStatusIndicator.afterPolls
      rw [hs]
      show s.timerFired (statusData (n + 1)) = _
      unfold VPNStatusIndicator.timerFired
      rw [h3]
      simp only []
      unfold VPNStatusIndicator.dispatch
      rw [h3, hr]
      simp
    · have hs0 := hstart
      simp only [VPNStatusIndicator.timerPart, Prod.mk.injEq] at hs0
      obtain ⟨k1, k2, k3, k4⟩ := hs0
      simp only [VPNStatusIndicator.timerPart, VPNStatusIndicator.source_remove, k1, k2, k3, k4,
        Prod.mk.injEq, true_and, and_true]
      simp

/-- C1. Starting from `enable()` on a new controller and with no user action,
the `n`-th arming of the poll timer (the refresh of `enable` being `n = 0`,
each later one a timer-driven `_refresh`) uses the delay `min (2 ^ n) 30`, so
the delays are 1, 2, 4, 8, 16, 30, 30, 30, ...: every one of these runs
returns, the timer armed after it has interval `min (2 ^ n) 30`, it is the one
pending source, and the step kept for the next arming is `min (2 ^ (n + 1)) 30`
(the step is doubled and capped only after the arming). -/
theorem backoff_sequence_from_enable (groupsData : Str) (statusData : Nat → Str) (n : Nat) :
    ∃ s, VPNStatusIndicator.afterPolls groupsData statusData n = Except.ok s ∧
      s.armedInterval = some (min (2 ^ n) 30) ∧
      s.mainloop.map Source.interval = [min (2 ^ n) 30] ∧
      s._timerStep = min (2 ^ (n + 1)) 30 := by
  obtain ⟨s, hs, ht⟩ := afterPolls_timerPart groupsData statusData n
  refine ⟨s, hs, armedInterval_of_timerPart s _ _ _ ht, ?_, ?_⟩
  · simp only [VPNStatusIndicator.timerPart, Prod.mk.injEq] at ht
    rw [ht.2.2.1]
    rfl
  · simp only [VPNStatusIndicator.timerPart, Prod.mk.injEq] at ht
    exact ht.1

/-- C2. A user-initiated `_connect(g)`, for every controller state and every
argument `g` (also a call without argument), and likewise `_disconnect()`, arms
the next poll timer with delay exactly 1: the timer that `_timer` names after
the call is pending with interval 1, and it is the one source the call added. -/
theorem connect_disconnect_arm_with_delay_one (self : VPNStatusIndicator) (g : Option Str) :
    ((self._connect g).armedInterval = some 1 ∧
      ∃ id, (self._connect g)._timer = some id ∧
        (self._connect g).mainloop = self.stopTimer.mainloop ++ [{ id := id, interval := 1 }]) ∧
    (self._disconnect.armedInterval = some 1 ∧
      ∃ id, self._disconnect._timer = some id ∧
        self._disconnect.mainloop = self.stopTimer.mainloop ++ [{ id := id, interval := 1 }]) := by
  refine ⟨⟨?_, ?_⟩, ⟨?_, ?_⟩⟩
  · unfold VPNStatusIndicator._connect
    exact armedInterval_startTimer _
  · exact ⟨_, rfl, rfl⟩
  · unfold VPNStatusIndicator._disconnect
    exact armedInterval_startTimer _
  · exact ⟨_, rfl, rfl⟩

/-! ## Letter case -/

theorem toNat_ofNat_of_lt (m : Nat) (h : m < 0xd800) : (Char.ofNat m).toNat = m := by
  unfold Char.ofNat
  rw [dif_pos (Or.inl h)]
  rfl

theorem char_eq_of_toNat_eq {c d : Char} (h : c.toNat = d.toNat) : c = d := by
  rw [← Char.ofNat_toNat c, ← Char.ofNat_toNat d, h]

theorem toNat_toUpper (c : Char) :
    c.toUpper.toNat = if 97 ≤ c.toNat ∧ c.toNat ≤ 122 then c.toNat - 32 else c.toNat := by
  unfold Char.toUpper
  simp only [ge_iff_le]
  split
  · rw [toNat_ofNat_of_lt]; omega
  · rfl

theorem toNat_toLower (c : Char) :
    c.toLower.toNat = if 65 ≤ c.toNat ∧ c.toNat ≤ 90 then c.toNat + 32 else c.toNat := by
  unfold Char.toLower
  simp only [ge_iff_le]
  split
  · rw [toNat_ofNat_of_lt]; omega
  · rfl

theorem isPlainUpper_iff (d : Char) :
    isPlainUpper d = true ↔
      (65 ≤ d.toNat ∧ d.toNat ≤ 90 ∧ d.toNat ≠ 70 ∧ d.toNat ≠ 73 ∧ d.toNat ≠ 83) := by
  simp [isPlainUpper, and_assoc]

theorem toLower_eq_iff (c d : Char) (hd : isPlainUpper d = true) :
    c.toLower = d.toLower ↔ (c.toNat = d.toNat ∨ c.toNat = d.toNat + 32) := by
  rw [isPlainUpper_iff] at hd
  constructor
  · intro h
    have h2 := congrArg Char.toNat h
    rw [toNat_toLower, toNat_toLower] at h2
    split at h2 <;> split at h2 <;> omega
  · intro h
    apply char_eq_of_toNat_eq
    rw [toNat_toLower, toNat_toLower]
    split <;> split <;> omega

theorem upperChar_cases (c : Char) :
    upperChar c = [c.toUpper] ∨
      ((c.toNat = 0x131 ∨ c.toNat = 0x17F ∨ c.toNat = 0xDF ∨ (0xFB00 ≤ c.toNat ∧ c.toNat ≤ 0xFB06)) ∧
        ∃ h t, upperChar c = h :: t ∧ (h.toNat = 70 ∨ h.toNat = 73 ∨ h.toNat = 83)) := by
  unfold upperChar
  simp only []
  by_cases h1 : c.toNat = 0x131
  · right; rw [if_pos h1]; exact ⟨Or.inl h1, _, _, rfl, by decide⟩
  rw [if_neg h1]
  by_cases h2 : c.toNat = 0x17F
  · right; rw [if_pos h2]; exact ⟨Or.inr (Or.inl h2), _, _, rfl, by decide⟩
  rw [if_neg h2]
  by_cases h3 : c.toNat = 0xDF
  · right; rw [if_pos h3]; exact ⟨Or.inr (Or.inr (Or.inl h3)), _, _, rfl, by decide⟩
  rw [if_neg h3]
  by_cases h4 : c.toNat = 0xFB00
  · right; rw [if_pos h4]; exact ⟨Or.inr (Or.inr (Or.inr (by omega))), _, _, rfl, by decide⟩
  rw [if_neg h4]
  by_cases h5 : c.toNat = 0xFB01
  · right; rw [if_pos h5]; exact ⟨Or.inr (Or.inr (Or.inr (by omega))), _, _, rfl, by decide⟩
  rw [if_neg h5]
  by_cases h6 : c.toNat = 0xFB02
  · right; rw [if_pos h6]; exact ⟨Or.inr (Or.inr (Or.inr (by omega))), _, _, rfl, by decide⟩
  rw [if_neg h6]
  by_cases h7 : c.toNat = 0xFB03
  · right; rw [if_pos h7]; exact ⟨Or.inr (Or.inr (Or.inr (by omega))), _, _, rfl, by decide⟩
  rw [if_neg h7]
  by_cases h8 : c.toNat = 0xFB04
  · right; rw [if_pos h8]; exact ⟨Or.inr (Or.inr (Or.inr (by omega))), _, _, rfl, by decide⟩
  rw [if_neg h8]
  by_cases h9 : c.toNat = 0xFB05
  · right; rw [if_pos h9]; exact ⟨Or.inr (Or.inr (Or.inr (by omega))), _, _, rfl, by decide⟩
  rw [if_neg h9]
  by_cases h10 : c.toNat = 0xFB06
  · right; rw [if_pos h10]; exact ⟨Or.inr (Or.inr (Or.inr (by omega))), _, _, rfl, by decide⟩
  rw [if_neg h10]
  left; rfl

theorem upperChar_append_eq_cons (c d : Char) (r t : Str) (hd : isPlainUpper d = true) :
    upperChar c ++ r = d :: t ↔ ((c.toNat = d.toNat ∨ c.toNat = d.toNat + 32) ∧ r = t) := by
  have hd2 := (isPlainUpper_iff d).mp hd
  rcases upperChar_cases c with h | ⟨hc, h, t0, hu, hh⟩
  · rw [h]
    simp only [List.singleton_append, List.cons.injEq]
    constructor
    · rintro ⟨h1, h2⟩
      refine ⟨?_, h2⟩
      have h3 := congrArg Char.toNat h1
      rw [toNat_toUpper] at h3
      split at h3 <;> omega
    · rintro ⟨h1, h2⟩
      refine ⟨?_, h2⟩
      apply char_eq_of_toNat_eq
      rw [toNat_toUpper]
      split <;> omega
  · rw [hu]
    simp only [List.cons_append, List.cons.injEq]
    constructor
    · rintro ⟨h1, -⟩
      rw [h1] at hh
      omega
    · rintro ⟨h1, -⟩
      omega

/-- Against a word of upper-case letters other than F, I and S, the comparison
of the `toUpperCase` image is equality ignoring letter case. -/
theorem toUpperCase_eq_iff (s t : Str) (ht : ∀ d ∈ t, isPlainUpper d = true) :
    toUpperCase s = t ↔ eqIgnoreCase s t := by
  unfold toUpperCase eqIgnoreCase
  induction s generalizing t with
  | nil =>
    cases t with
    | nil => simp
    | cons d t => simp
  | cons c cs ih =>
    cases t with
    | nil =>
      simp only [List.flatMap_cons, List.map_cons, List.map_nil, List.append_eq_nil,
        reduceCtorEq, iff_false, not_and]
      intro h
      rcases upperChar_cases c with h' | ⟨-, _, _, h', -⟩ <;> rw [h'] at h <;> cases h
    | cons d t =>
      have hd := ht d (List.mem_cons_self _ _)
      have ht' : ∀ e ∈ t, isPlainUpper e = true := fun e he => ht e (List.mem_cons_of_mem _ he)
      simp only [List.flatMap_cons, List.map_cons, List.cons.injEq]
      rw [upperChar_append_eq_cons c d _ _ hd, toLower_eq_iff c d hd, ih t ht']

theorem toUpperCase_eq_CONNECTED_iff (s : Str) :
    toUpperCase s = NordVPN.CONNECTED ↔ eqIgnoreCase s "CONNECTED".toList :=
  toUpperCase_eq_iff s _ (by decide)

/-! ## Lines, occurrences and trimming -/

theorem isPrefixOf_iff (pat s : Str) : pat.isPrefixOf s = true ↔ pat <+: s :=
  List.isPrefixOf_iff_prefix

theorem includes_iff_occurs (pat s : Str) : includes pat s = true ↔ pat <:+: s := by
  induction s with
  | nil =>
    simp only [includes, isPrefixOf_iff]
    constructor
    · intro h; exact h.isInfix
    · intro h
      have := List.eq_nil_of_infix_nil h
      subst this
      exact List.prefix_refl _
  | cons c cs ih =>
    simp only [includes, Bool.or_eq_true, isPrefixOf_iff, ih]
    rw [List.infix_cons_iff]

theorem split_cons_sep (sep : Char) (cs : Str) : split sep (sep :: cs) = [] :: split sep cs := by
  simp [split]

theorem split_cons_of_ne (sep c : Char) (cs : Str) (h : c ≠ sep) :
    split sep (c :: cs) =
      match split sep cs with
      | [] => [[c]]
      | l :: ls => (c :: l) :: ls := by
  simp [split, h]

theorem split_ne_nil (sep : Char) (s : Str) : split sep s ≠ [] := by
  cases s with
  | nil => simp [split]
  | cons c cs =>
    unfold split
    split
    · simp
    · split <;> simp

theorem split_of_not_mem (sep : Char) (l : Str) (h : sep ∉ l) : split sep l = [l] := by
  induction l with
  | nil => rfl
  | cons c cs ih =>
    have hc : c ≠ sep := fun e => h (e ▸ List.mem_cons_self _ _)
    have hcs : sep ∉ cs := fun e => h (List.mem_cons_of_mem _ e)
    rw [split_cons_of_ne _ _ _ hc, ih hcs]

theorem split_append_sep (sep : Char) (l rest : Str) (h : sep ∉ l) :
    split sep (l ++ sep :: rest) = l :: split sep rest := by
  induction l with
  | nil => simp [split]
  | cons c cs ih =>
    have hc : c ≠ sep := fun e => h (e ▸ List.mem_cons_self _ _)
    have hcs : sep ∉ cs := fun e => h (List.mem_cons_of_mem _ e)
    rw [List.cons_append, split_cons_of_ne _ _ _ hc, ih hcs]

theorem split_joinLines (ls : List Str) (hne : ls ≠ []) (h : ∀ l ∈ ls, '\n' ∉ l) :
    split '\n' (joinLines ls) = ls := by
  induction ls with
  | nil => exact absurd rfl hne
  | cons l ls ih =>
    cases ls with
    | nil => exact split_of_not_mem _ _ (h l (List.mem_cons_self _ _))
    | cons l' ls =>
      unfold joinLines
      rw [split_append_sep _ _ _ (h l (List.mem_cons_self _ _)),
        ih (by simp) (fun x hx => h x (List.mem_cons_of_mem _ hx))]

theorem mem_split_within (sep : Char) (s l : Str) (h : l ∈ split sep s) : l <:+: s := by
  induction s generalizing l with
  | nil =>
    simp only [split, List.mem_singleton] at h
    subst h
    exact List.infix_refl _
  | cons c cs ih =>
    unfold split at h
    split at h
    · rcases List.mem_cons.mp h with rfl | h
      · exact (List.nil_prefix (l := c :: cs)).isInfix
      · exact (ih l h).trans (List.suffix_cons c cs).isInfix
    · split at h
      · rename_i h0
        exact absurd h0 (split_ne_nil sep cs)
      · rename_i l0 ls0 h0
        rcases List.mem_cons.mp h with rfl | h
        · have hl0 : l0 ∈ split sep cs := by rw [h0]; exact List.mem_cons_self _ _
          have hp : l0 <+: cs := by
            clear ih h
            induction cs generalizing l0 ls0 with
            | nil =>
              simp only [split, List.cons.injEq] at h0
              rw [← h0.1]
            | cons d ds ihd =>
              unfold split at h0
              split at h0
              · simp only [List.cons.injEq] at h0
                rw [← h0.1]
                exact List.nil_prefix
              · split at h0
                · rename_i h1
                  exact absurd h1 (split_ne_nil sep ds)
                · rename_i l1 ls1 h1
                  simp only [List.cons.injEq] at h0
                  rw [← h0.1]
                  have := ihd l1 ls1 h1 (by rw [h1]; exact List.mem_cons_self _ _)
                  exact (List.prefix_cons_inj d).mpr this
          exact ((List.prefix_cons_inj c).mpr hp).isInfix
        · have : l ∈ split sep cs := by rw [h0]; exact List.mem_cons_of_mem _ h
          exact (ih l this).trans (List.suffix_cons c cs).isInfix

theorem trim_within (s : Str) : trim s <:+: s := by
  unfold trim trimEnd trimStart
  have h1 : s.dropWhile isWhiteSpace <:+ s := List.dropWhile_suffix _
  have h2 : ((s.dropWhile isWhiteSpace).reverse.dropWhile isWhiteSpace).reverse <+:
      s.dropWhile isWhiteSpace := by
    rw [← List.reverse_suffix]
    simp only [List.reverse_reverse]
    exact List.dropWhile_suffix _
  exact h2.isInfix.trans h1.isInfix

theorem dropWhile_append_of_all {p : Char → Bool} (ws s : Str) (h : ∀ c ∈ ws, p c = true) :
    (ws ++ s).dropWhile p = s.dropWhile p := by
  induction ws with
  | nil => rfl
  | cons w ws ih =>
    rw [List.cons_append, List.dropWhile_cons, if_pos (h w (List.mem_cons_self _ _))]
    exact ih (fun c hc => h c (List.mem_cons_of_mem _ hc))

theorem dropWhile_all {p : Char → Bool} (ws : Str) (h : ∀ c ∈ ws, p c = true) :
    ws.dropWhile p = [] := by
  have := dropWhile_append_of_all ws [] h
  simpa using this

theorem trimStart_append_ws (ws s : Str) (h : ∀ c ∈ ws, isWhiteSpace c = true) :
    trimStart (ws ++ s) = trimStart s :=
  dropWhile_append_of_all ws s h

theorem trimEnd_append_ws (s ws : Str) (h : ∀ c ∈ ws, isWhiteSpace c = true) :
    trimEnd (s ++ ws) = trimEnd s := by
  unfold trimEnd
  rw [List.reverse_append, dropWhile_append_of_all _ _ (fun c hc => h c (List.mem_reverse.mp hc))]

theorem trimStart_of_isTrimmed (s : Str) (h : isTrimmed s = true) : trimStart s = s := by
  cases s with
  | nil => rfl
  | cons c cs =>
    have hc : isWhiteSpace c = false := by
      simp [isTrimmed] at h
      exact h.1
    simp [trimStart, List.dropWhile_cons, hc]

theorem trimEnd_of_isTrimmed (s : Str) (h : isTrimmed s = true) : trimEnd s = s := by
  unfold trimEnd
  cases hr : s.reverse with
  | nil =>
    have : s = [] := by simpa using hr
    subst this; rfl
  | cons c cs =>
    have hs : s = cs.reverse ++ [c] := by
      have := congrArg List.reverse hr
      simpa using this
    have hc : isWhiteSpace c = false := by
      subst hs
      simp [isTrimmed] at h
      exact h.2
    rw [List.dropWhile_cons, hc]
    simp [hs]

/-- White space around a text without outer white space is what `trim` drops. -/
theorem trim_surrounded (ws1 body ws2 : Str) (h1 : ∀ c ∈ ws1, isWhiteSpace c = true)
    (h2 : ∀ c ∈ ws2, isWhiteSpace c = true) (hb : isTrimmed body = true) :
    trim (ws1 ++ body ++ ws2) = body := by
  unfold trim
  rw [List.append_assoc, trimStart_append_ws _ _ h1]
  cases body with
  | nil =>
    rw [List.nil_append]
    have : trimStart ws2 = [] := dropWhile_all ws2 h2
    rw [this]; rfl
  | cons c cs =>
    have hc : isWhiteSpace c = false := by
      simp [isTrimmed] at hb
      exact hb.1
    have : trimStart (c :: cs ++ ws2) = c :: cs ++ ws2 := by
      simp [trimStart, List.dropWhile_cons, hc]
    rw [this, trimEnd_append_ws _ _ h2, trimEnd_of_isTrimmed _ hb]

theorem trim_space_cons (s : Str) (h : isTrimmed s = true) : trim (' ' :: s) = s := by
  have := trim_surrounded [' '] s [] (by decide) (by simp) h
  simpa using this

theorem matchDigits_of_run (pre digits post : Str) (hpre : ∀ c ∈ pre, isDigit c = false)
    (hne : digits ≠ []) (hd : ∀ c ∈ digits, isDigit c = true)
    (hpost : ∀ c, post.head? = some c → isDigit c = false) :
    matchDigits (pre ++ digits ++ post) = some digits := by
  unfold matchDigits
  rw [List.append_assoc, dropWhile_append_of_all pre _ (by
    intro c hc; simp [hpre c hc])]
  cases digits with
  | nil => exact absurd rfl hne
  | cons d ds =>
    have hdd : isDigit d = true := hd d (List.mem_cons_self _ _)
    rw [List.cons_append, List.dropWhile_cons]
    simp only [hdd, Bool.not_true, Bool.false_eq_true, if_false]
    congr 1
    rw [← List.cons_append]
    clear hdd hne
    generalize d :: ds = run at hd
    induction run with
    | nil =>
      cases post with
      | nil => rfl
      | cons c cs =>
        have := hpost c rfl
        simp [List.takeWhile_cons, this]
    | cons r rs ih =>
      rw [List.cons_append, List.takeWhile_cons, if_pos (hd r (List.mem_cons_self _ _))]
      rw [ih (fun c hc => hd c (List.mem_cons_of_mem _ hc))]

theorem find?_of_unique {α : Type} (p : α → Bool) (l : List α) (a : α) (ha : a ∈ l)
    (hp : p a = true) (hu : ∀ b ∈ l, p b = true → b = a) : l.find? p = some a := by
  induction l with
  | nil => cases ha
  | cons x xs ih =>
    rw [List.find?_cons]
    cases hx : p x with
    | true =>
      have := hu x (List.mem_cons_self _ _) hx
      simp [this]
    | false =>
      simp only []
      rcases List.mem_cons.mp ha with rfl | ha'
      · rw [hp] at hx; cases hx
      · exact ih ha' (fun b hb => hu b (List.mem_cons_of_mem _ hb))

theorem find?_insert_of_false {α : Type} (p : α → Bool) (l1 l2 : List α) (a : α)
    (hp : p a = false) : (l1 ++ a :: l2).find? p = (l1 ++ l2).find? p := by
  induction l1 with
  | nil => simp [List.find?_cons, hp]
  | cons x xs ih =>
    simp only [List.cons_append, List.find?_cons]
    rw [ih]

theorem find?_eq_none_of_all_false {α : Type} (p : α → Bool) (l : List α)
    (h : ∀ a ∈ l, p a = false) : l.find? p = none := by
  rw [List.find?_eq_none]
  intro a ha
  simp [h a ha]

/-! ## Well-formed connected status text -/

theorem fieldLine_of_unique (marker data line : Str) (lines : List Str)
    (hl : statusLines data = lines) (hmem : line ∈ lines) (hinc : marker <:+: line)
    (hu : ∀ l ∈ lines, marker <:+: l → l = line) : fieldLine marker data = some line := by
  unfold fieldLine
  rw [hl]
  apply find?_of_unique _ _ _ hmem
  · exact (includes_iff_occurs _ _).mpr hinc
  · intro b hb hpb
    exact hu b hb ((includes_iff_occurs _ _).mp hpb)

/-- What `getStatus` returns on a well-formed connected status text. -/
theorem getStatus_of_wellFormed (self : NordVPN) (data X Y pre digits : Str)
    (h : WellFormedConnected data X Y pre digits) :
    self.getStatus data = Except.ok
      { connected := true
        group := groupField self
        status := "Connected".toList
        serverNumber := Value.matchArray digits
        country := Value.str X
        city := Value.str Y
        fullStatus := trim data } := by
  obtain ⟨ws1, ws2, lines, hdata, hws1, hws2, hbody, hnl, mS, mC, mY, mN, uS, uC, uY, uN,
    hX, hY, hpre, hne, hdig⟩ := h
  have htrim : trim data = joinLines lines := by
    rw [hdata]; exact trim_surrounded _ _ _ hws1 hws2 hbody
  have hlines : statusLines data = lines := by
    unfold statusLines
    rw [htrim]
    exact split_joinLines lines (List.ne_nil_of_mem mS) hnl
  have fS := fieldLine_of_unique _ data _ lines hlines mS (by decide) uS
  have fC := fieldLine_of_unique _ data _ lines hlines mC
    ⟨[], ' ' :: X, rfl⟩ uC
  have fY := fieldLine_of_unique _ data _ lines hlines mY
    ⟨[], ' ' :: Y, rfl⟩ uY
  have fN := fieldLine_of_unique _ data _ lines hlines mN
    ⟨pre, ' ' :: digits, by simp⟩ uN
  have hword : statusWord data = "Connected".toList := by
    unfold statusWord
    rw [fS]
    decide
  have hcountry : textField "Country:".toList data = Value.str X := by
    unfold textField
    rw [fC]
    show Value.str (trim (' ' :: X)) = _
    rw [trim_space_cons X hX]
  have hcity : textField "City:".toList data = Value.str Y := by
    unfold textField
    rw [fY]
    show Value.str (trim (' ' :: Y)) = _
    rw [trim_space_cons Y hY]
  have hnum : serverNumberField data = Value.matchArray digits := by
    unfold serverNumberField
    rw [fN]
    have hpre' : ∀ c ∈ pre ++ "server: ".toList, isDigit c = false := by
      intro c hc
      rcases List.mem_append.mp hc with hc | hc
      · exact hpre c hc
      · have hall : ∀ d ∈ "server: ".toList, isDigit d = false := by decide
        exact hall c hc
    have := matchDigits_of_run (pre ++ "server: ".toList) digits [] hpre' hne hdig (by simp)
    rw [List.append_nil] at this
    simp only [this]
  rw [getStatus_eq, hword, hcountry, hcity, hnum]
  rfl

/-! ## Claims on `getStatus` -/

/-- C3. On every well-formed connected status text (lines `Status: Connected`,
`Country: X`, `City: Y`, `... server: 123`) `getStatus` returns
`connected = true`, `country = X` and `city = Y`; the `serverNumber` it returns
is the array that `match` produced for the digit run, which is not a number,
whatever the number. -/
theorem getStatus_wellFormed_serverNumber_not_a_number (self : NordVPN)
    (data X Y pre digits : Str) (h : WellFormedConnected data X Y pre digits) :
    ∃ st, self.getStatus data = Except.ok st ∧ st.connected = true ∧
      st.country = Value.str X ∧ st.city = Value.str Y ∧
      st.serverNumber = Value.matchArray digits ∧ ∀ n : Nat, st.serverNumber ≠ Value.num n := by
  refine ⟨_, getStatus_of_wellFormed self data X Y pre digits h, rfl, rfl, rfl, rfl, ?_⟩
  intro n hn
  cases hn

theorem getStatus_wellFormed_serverNumber_not_a_number_witness :
    ∃ st, NordVPN.new.getStatus
        "Status: Connected\nCountry: X\nCity: Y\nCurrent server: 123".toList = Except.ok st ∧
      st.connected = true ∧ st.country = Value.str "X".toList ∧ st.city = Value.str "Y".toList ∧
      st.serverNumber = Value.matchArray "123".toList ∧
      ∀ n : Nat, st.serverNumber ≠ Value.num n :=
  getStatus_wellFormed_serverNumber_not_a_number NordVPN.new
    "Status: Connected\nCountry: X\nCity: Y\nCurrent server: 123".toList
    "X".toList "Y".toList "Current ".toList "123".toList
    ⟨[], [], ["Status: Connected".toList, "Country: X".toList, "City: Y".toList,
        "Current server: 123".toList], by decide⟩

theorem statusWord_unknown_not_connected :
    toUpperCase "Unknown".toList ≠ NordVPN.CONNECTED := by decide

theorem prefix_head_split (sep : Char) (pat s : Str) (hsep : sep ∉ pat) (hp : pat <+: s) :
    ∃ l ls, split sep s = l :: ls ∧ pat <+: l := by
  induction s generalizing pat with
  | nil =>
    have : pat = [] := List.prefix_nil.mp hp
    subst this
    exact ⟨[], [], rfl, List.prefix_refl _⟩
  | cons c cs ih =>
    cases pat with
    | nil =>
      cases hs : split sep (c :: cs) with
      | nil => exact absurd hs (split_ne_nil _ _)
      | cons l ls => exact ⟨l, ls, rfl, List.nil_prefix⟩
    | cons p ps =>
      have hpc : p = c ∧ ps <+: cs := by
        have := List.cons_prefix_cons.mp hp
        exact this
      obtain ⟨rfl, hps⟩ := hpc
      have hne : p ≠ sep := fun e => hsep (e ▸ List.mem_cons_self _ _)
      obtain ⟨l, ls, hl, hpl⟩ := ih ps (fun e => hsep (List.mem_cons_of_mem _ e)) hps
      refine ⟨p :: l, ls, ?_, (List.prefix_cons_inj p).mpr hpl⟩
      rw [split_cons_of_ne _ _ _ hne, hl]

/-- A pattern without separator that occurs in a text occurs in one of its
pieces. -/
theorem infix_some_piece (sep : Char) (pat s : Str) (hsep : sep ∉ pat) (hp : pat <:+: s) :
    ∃ l ∈ split sep s, pat <:+: l := by
  induction s with
  | nil =>
    have : pat = [] := List.eq_nil_of_infix_nil hp
    subst this
    exact ⟨[], by simp [split], List.infix_refl _⟩
  | cons c cs ih =>
    rcases List.infix_cons_iff.mp hp with hpre | hin
    · obtain ⟨l, ls, hl, hpl⟩ := prefix_head_split sep pat (c :: cs) hsep hpre
      exact ⟨l, by rw [hl]; exact List.mem_cons_self _ _, hpl.isInfix⟩
    · obtain ⟨l, hl, hpl⟩ := ih hin
      by_cases hc : c = sep
      · subst hc
        exact ⟨l, by rw [split_cons_sep]; exact List.mem_cons_of_mem _ hl, hpl⟩
      · rw [split_cons_of_ne _ _ _ hc]
        cases hs : split sep cs with
        | nil => exact absurd hs (split_ne_nil _ _)
        | cons l0 ls =>
          rw [hs] at hl
          rcases List.mem_cons.mp hl with rfl | hl'
          · exact ⟨c :: l, List.mem_cons_self _ _, hpl.trans (List.suffix_cons c l).isInfix⟩
          · exact ⟨l, List.mem_cons_of_mem _ hl', hpl⟩

/-- C7. Parsing by `getStatus` is total: for every command output, the empty
string and malformed text included, it returns a status value and raises
nothing. When no line contains "Status:" (no line of the trimmed text, no
line of the output as it came, or the output as a whole) the result has
`status = "Unknown"` and `connected = false`; the empty output is such a
case. -/
theorem getStatus_total_and_unknown_without_status_line (self : NordVPN) (data : Str) :
    (∃ st, self.getStatus data = Except.ok st ∧
      ((∀ line ∈ statusLines data, ¬ "Status:".toList <:+: line) →
        st.status = "Unknown".toList ∧ st.connected = false) ∧
      ((∀ line ∈ split '\n' data, ¬ "Status:".toList <:+: line) →
        st.status = "Unknown".toList ∧ st.connected = false) ∧
      (¬ "Status:".toList <:+: data →
        st.status = "Unknown".toList ∧ st.connected = false)) ∧
    self.getStatus [] = Except.ok
      { connected := false
        group := "Standard".toList
        status := "Unknown".toList
        serverNumber := Value.undefined
        country := Value.undefined
        city := Value.undefined
        fullStatus := [] } := by
  have key : (∀ line ∈ statusLines data, ¬ "Status:".toList <:+: line) →
      (if toUpperCase (statusWord data) = NordVPN.CONNECTED then
        ({ connected := true
           group := groupField self
           status := statusWord data
           serverNumber := serverNumberField data
           country := textField "Country:".toList data
           city := textField "City:".toList data
           fullStatus := trim data } : VPNStatus)
      else
        { connected := false
          group := "Standard".toList
          status := statusWord data
          serverNumber := Value.undefined
          country := Value.undefined
          city := Value.undefined
          fullStatus := trim data }).status = "Unknown".toList ∧
      (if toUpperCase (statusWord data) = NordVPN.CONNECTED then
        ({ connected := true
           group := groupField self
           status := statusWord data
           serverNumber := serverNumberField data
           country := textField "Country:".toList data
           city := textField "City:".toList data
           fullStatus := trim data } : VPNStatus)
      else
        { connected := false
          group := "Standard".toList
          status := statusWord data
          serverNumber := Value.undefined
          country := Value.undefined
          city := Value.undefined
          fullStatus := trim data }).connected = false := by
    intro hno
    have hnone : fieldLine "Status:".toList data = none := by
      unfold fieldLine
      apply find?_eq_none_of_all_false
      intro line hl
      cases hi : includes "Status:".toList line with
      | false => rfl
      | true => exact absurd ((includes_iff_occurs _ _).mp hi) (hno line hl)
    have hw : statusWord data = "Unknown".toList := by
      unfold statusWord; rw [hnone]
    rw [hw, if_neg statusWord_unknown_not_connected]
    exact ⟨rfl, rfl⟩
  have whole : ¬ "Status:".toList <:+: data →
      ∀ line ∈ statusLines data, ¬ "Status:".toList <:+: line := by
    intro hno line hl hin
    exact hno ((hin.trans (mem_split_within _ _ _ hl)).trans (trim_within data))
  have raw : (∀ line ∈ split '\n' data, ¬ "Status:".toList <:+: line) →
      ¬ "Status:".toList <:+: data := by
    intro hno hin
    obtain ⟨l, hl, hpl⟩ := infix_some_piece '\n' _ data (by decide) hin
    exact hno l hl hpl
  refine ⟨⟨_, getStatus_eq self data, key, fun h => key (whole (raw h)),
    fun h => key (whole h)⟩, ?_⟩
  rw [getStatus_eq]
  have hno : ¬ toUpperCase (statusWord []) = NordVPN.CONNECTED := by decide
  rw [if_neg hno]
  rfl

/-- The value of `serverNumber` in a connected status, by cases: "Unknown"
when no line contains "server:", `null` when the server line holds no digit,
and otherwise the match array for the first run of digits of that line. -/
theorem serverNumberField_cases (data : Str) :
    (fieldLine "server:".toList data = none →
      serverNumberField data = Value.str "Unknown".toList) ∧
    (∀ line, fieldLine "server:".toList data = some line →
      (∀ c ∈ line, isDigit c = false) → serverNumberField data = Value.null) ∧
    (∀ pre digits post, fieldLine "server:".toList data = some (pre ++ digits ++ post) →
      (∀ c ∈ pre, isDigit c = false) → digits ≠ [] → (∀ c ∈ digits, isDigit c = true) →
      (∀ c, post.head? = some c → isDigit c = false) →
      serverNumberField data = Value.matchArray digits) := by
  refine ⟨?_, ?_, ?_⟩
  · intro h
    unfold serverNumberField; rw [h]
  · intro line h hno
    unfold serverNumberField
    rw [h]
    have : matchDigits line = none := by
      unfold matchDigits
      rw [dropWhile_all line (by intro c hc; simp [hno c hc])]
    simp only [this]
  · intro pre digits post h hpre hne hd hpost
    unfold serverNumberField
    rw [h]
    simp only [matchDigits_of_run pre digits post hpre hne hd hpost]

/-- C8. On the connected status text whose server line is
`Current server: nordvpn.com`, a line with no digit, `getStatus` returns
`serverNumber = null`: the match failed and its result is stored as it is, so
the field is not "Unknown". -/
theorem serverNumber_null_when_server_line_has_no_digit (self : NordVPN) :
    ∃ st, self.getStatus "Status: Connected\nCurrent server: nordvpn.com".toList =
        Except.ok st ∧
      st.connected = true ∧ st.serverNumber = Value.null ∧
      st.serverNumber ≠ Value.str "Unknown".toList := by
  refine ⟨_, getStatus_eq self _, ?_⟩
  have hc : toUpperCase (statusWord "Status: Connected\nCurrent server: nordvpn.com".toList) =
      NordVPN.CONNECTED := by decide
  rw [if_pos hc]
  have hn : serverNumberField "Status: Connected\nCurrent server: nordvpn.com".toList =
      Value.null := by decide
  refine ⟨rfl, hn, ?_⟩
  show serverNumberField "Status: Connected\nCurrent server: nordvpn.com".toList ≠ _
  rw [hn]
  decide

/-! ## Tokens of the groups output -/

theorem pieces_cons_delim (delim : Char → Bool) (c : Char) (cs : Str) (h : delim c = true) :
    pieces delim (c :: cs) = [] :: pieces delim cs := by
  simp [pieces, h]

theorem pieces_cons_of_not (delim : Char → Bool) (c : Char) (cs : Str) (h : delim c = false) :
    pieces delim (c :: cs) =
      match pieces delim cs with
      | [] => [[c]]
      | l :: ls => (c :: l) :: ls := by
  simp [pieces, h]

theorem pieces_ne_nil (delim : Char → Bool) (s : Str) : pieces delim s ≠ [] := by
  cases s with
  | nil => simp [pieces]
  | cons c cs =>
    cases h : delim c with
    | true => rw [pieces_cons_delim _ _ _ h]; simp
    | false =>
      rw [pieces_cons_of_not _ _ _ h]
      split <;> simp

/-- The head piece of a text that starts with a delimiter-free stretch closed
by a delimiter or by the end of the text. -/
theorem pieces_head (delim : Char → Bool) (t post : Str) (ht : ∀ c ∈ t, delim c = false)
    (hpost : ∀ c, post.head? = some c → delim c = true) :
    ∃ ls, pieces delim (t ++ post) = t :: ls := by
  induction t with
  | nil =>
    cases post with
    | nil => exact ⟨[], rfl⟩
    | cons d q =>
      exact ⟨pieces delim q, pieces_cons_delim _ _ _ (hpost d rfl)⟩
  | cons c t ih =>
    obtain ⟨ls, hls⟩ := ih (fun x hx => ht x (List.mem_cons_of_mem _ hx))
    refine ⟨ls, ?_⟩
    rw [List.cons_append, pieces_cons_of_not _ _ _ (ht c (List.mem_cons_self _ _)), hls]

theorem pieces_append_delim (delim : Char → Bool) (a b : Str) (d : Char) (hd : delim d = true) :
    pieces delim (a ++ d :: b) = pieces delim a ++ pieces delim b := by
  induction a with
  | nil => rw [List.nil_append, pieces_cons_delim _ _ _ hd]; rfl
  | cons c a ih =>
    rw [List.cons_append]
    cases hc : delim c with
    | true =>
      rw [pieces_cons_delim _ _ _ hc, pieces_cons_delim _ _ _ hc, ih]
      rfl
    | false =>
      rw [pieces_cons_of_not _ _ _ hc, pieces_cons_of_not _ _ _ hc, ih]
      cases hp : pieces delim a with
      | nil => exact absurd hp (pieces_ne_nil _ _)
      | cons l ls => rfl

/-- Where the pieces of a text lie in it: the head piece is a prefix, every
later piece follows a delimiter; each is delimiter-free and closed by a
delimiter or by the end of the text. -/
theorem pieces_occurrences (delim : Char → Bool) (s : Str) :
    ∃ h tl, pieces delim s = h :: tl ∧
      ((∀ c ∈ h, delim c = false) ∧
        ∃ post, s = h ++ post ∧ (∀ c, post.head? = some c → delim c = true)) ∧
      ∀ t ∈ tl, (∀ c ∈ t, delim c = false) ∧
        ∃ pre d post, s = (pre ++ [d]) ++ t ++ post ∧ delim d = true ∧
          (∀ c, post.head? = some c → delim c = true) := by
  induction s with
  | nil =>
    refine ⟨[], [], rfl, ⟨by simp, [], rfl, by simp⟩, by simp⟩
  | cons c cs ih =>
    obtain ⟨h, tl, hp, ⟨hfree, post, hs, hpost⟩, htl⟩ := ih
    cases hc : delim c with
    | true =>
      refine ⟨[], h :: tl, by rw [pieces_cons_delim _ _ _ hc, hp], ⟨by simp, c :: cs, rfl, ?_⟩, ?_⟩
      · intro x hx
        simp only [List.head?_cons, Option.some.injEq] at hx
        rw [← hx]; exact hc
      · intro t ht
        rcases List.mem_cons.mp ht with rfl | ht
        · exact ⟨hfree, [], c, post, by rw [hs]; simp, hc, hpost⟩
        · obtain ⟨hf, pre, d, post', hs', hd, hpost'⟩ := htl t ht
          exact ⟨hf, c :: pre, d, post', by rw [hs']; simp, hd, hpost'⟩
    | false =>
      refine ⟨c :: h, tl, by rw [pieces_cons_of_not _ _ _ hc, hp], ⟨?_, post, by rw [hs]; simp, hpost⟩, ?_⟩
      · intro x hx
        rcases List.mem_cons.mp hx with rfl | hx
        · exact hc
        · exact hfree x hx
      · intro t ht
        obtain ⟨hf, pre, d, post', hs', hd, hpost'⟩ := htl t ht
        exact ⟨hf, c :: pre, d, post', by rw [hs']; simp, hd, hpost'⟩

/-- The non-empty pieces are the tokens. -/
theorem mem_pieces_iff (delim : Char → Bool) (tok s : Str) (hne : tok ≠ []) :
    tok ∈ pieces delim s ↔ OccursAsToken delim tok s := by
  constructor
  · intro hmem
    obtain ⟨h, tl, hp, ⟨hfree, post, hs, hpost⟩, htl⟩ := pieces_occurrences delim s
    rw [hp] at hmem
    rcases List.mem_cons.mp hmem with rfl | hmem
    · exact ⟨hne, hfree, [], post, by rw [hs]; simp, by simp, hpost⟩
    · obtain ⟨hf, pre, d, post', hs', hd, hpost'⟩ := htl tok hmem
      refine ⟨hne, hf, pre ++ [d], post', hs', ?_, hpost'⟩
      intro c hc
      have hl : (pre ++ [d]).getLast? = some d := by simp
      rw [hl] at hc
      cases hc
      exact hd
  · rintro ⟨-, hfree, pre, post, hs, hpre, hpost⟩
    obtain ⟨ls, hls⟩ := pieces_head delim tok post hfree hpost
    rcases List.eq_nil_or_concat pre with rfl | ⟨p, d, rfl⟩
    · rw [hs, List.nil_append, hls]
      exact List.mem_cons_self _ _
    · have hd : delim d = true := hpre d (by simp)
      have : s = p ++ d :: (tok ++ post) := by rw [hs]; simp
      rw [this, pieces_append_delim _ _ _ _ hd, hls]
      exact List.mem_append_right _ (List.mem_cons_self _ _)

theorem isTokenDelim_eq (c : Char) :
    isTokenDelim c = (NordVPN.isGroupDelim c || decide (c = ' ')) := by
  unfold isTokenDelim NordVPN.isGroupDelim
  by_cases h1 : c = ',' <;> by_cases h2 : c = '-' <;> by_cases h3 : c = '\r' <;>
    by_cases h4 : c = ' ' <;> simp [h1, h2, h3, h4]

/-- Splitting at spaces after the delimiter runs were replaced gives the same
non-empty pieces as splitting the text at its delimiters. -/
theorem split_replaceDelimRuns (text : Str) :
    (∃ a l1 l2, split ' ' (NordVPN.replaceDelimRuns false text) = a :: l1 ∧
      pieces isTokenDelim text = a :: l2 ∧
      l1.filter (fun t => !t.isEmpty) = l2.filter (fun t => !t.isEmpty)) ∧
    (split ' ' (NordVPN.replaceDelimRuns true text)).filter (fun t => !t.isEmpty) =
      (pieces isTokenDelim text).filter (fun t => !t.isEmpty) := by
  induction text with
  | nil => exact ⟨⟨[], [], [], rfl, rfl, rfl⟩, rfl⟩
  | cons c cs ih =>
    obtain ⟨⟨a, l1, l2, h1, h2, hf⟩, ht⟩ := ih
    have hall : (split ' ' (NordVPN.replaceDelimRuns false cs)).filter (fun t => !t.isEmpty) =
        (pieces isTokenDelim cs).filter (fun t => !t.isEmpty) := by
      rw [h1, h2, List.filter_cons, List.filter_cons, hf]
    by_cases hg : NordVPN.isGroupDelim c = true
    · have hd : isTokenDelim c = true := by rw [isTokenDelim_eq, hg]; rfl
      have r0 : NordVPN.replaceDelimRuns false (c :: cs) =
          ' ' :: NordVPN.replaceDelimRuns true cs := by
        simp [NordVPN.replaceDelimRuns, hg]
      have r1 : NordVPN.replaceDelimRuns true (c :: cs) = NordVPN.replaceDelimRuns true cs := by
        simp [NordVPN.replaceDelimRuns, hg]
      rw [r0, r1, split_cons_sep, pieces_cons_delim _ _ _ hd]
      refine ⟨⟨[], _, _, rfl, rfl, ht⟩, ?_⟩
      rw [ht]
      rfl
    · have hg' : NordVPN.isGroupDelim c = false := by simpa using hg
      have r0 : ∀ b, NordVPN.replaceDelimRuns b (c :: cs) =
          c :: NordVPN.replaceDelimRuns false cs := by
        intro b
        simp [NordVPN.replaceDelimRuns, hg']
      rw [r0, r0]
      by_cases hsp : c = ' '
      · have hd : isTokenDelim c = true := by rw [isTokenDelim_eq, hg']; simp [hsp]
        rw [pieces_cons_delim _ _ _ hd]
        subst hsp
        rw [split_cons_sep]
        refine ⟨⟨[], _, _, rfl, rfl, hall⟩, ?_⟩
        rw [List.filter_cons, List.filter_cons, hall]
      · have hd : isTokenDelim c = false := by rw [isTokenDelim_eq, hg']; simp [hsp]
        rw [pieces_cons_of_not _ _ _ hd, split_cons_of_ne _ _ _ hsp, h1, h2]
        refine ⟨⟨c :: a, l1, l2, rfl, rfl, hf⟩, ?_⟩
        simp only [List.filter_cons, hf]

theorem mem_available_iff (tok data : Str) :
    tok ∈ NordVPN.available data ↔ OccursAsToken isTokenDelim tok (trim data) := by
  unfold NordVPN.available
  simp only []
  obtain ⟨⟨a, l1, l2, h1, h2, hf⟩, -⟩ := split_replaceDelimRuns (trim data)
  have hall : (split ' ' (NordVPN.replaceDelimRuns false (trim data))).filter
      (fun t => !t.isEmpty) = (pieces isTokenDelim (trim data)).filter (fun t => !t.isEmpty) := by
    rw [h1, h2, List.filter_cons, List.filter_cons, hf]
  rw [hall, List.mem_filter]
  constructor
  · rintro ⟨hmem, hne⟩
    have hne' : tok ≠ [] := by
      intro h; subst h; simp at hne
    exact (mem_pieces_iff _ _ _ hne').mp hmem
  · intro h
    have hne' : tok ≠ [] := h.1
    refine ⟨(mem_pieces_iff _ _ _ hne').mpr h, ?_⟩
    cases tok with
    | nil => exact absurd rfl hne'
    | cons c cs => rfl

theorem getGroups_groups (self : NordVPN) (data : Str) :
    (self.getGroups data).groups =
      customGroups.filter (fun group => decide (group.name ∈ NordVPN.available data)) := rfl

theorem customGroups_nodup : customGroups.Nodup := by decide

/-- C9. For every output of the groups command `getGroups` sets `groups` to
the static `customGroups` filtered to the entries whose name is one of the
tokens of the output: the result is a subsequence of `customGroups` in its
declared order, it has no duplicates (also when a token repeats), every entry
of it is a static group whose name is a token, and every static group whose
name is a token is in it. The output "P2P,Double_VPN-Onion_Over_VPN" yields
P2P, Double_VPN, Onion_Over_VPN, and "P2P,Foo,P2P" yields P2P alone. -/
theorem getGroups_filters_customGroups (self : NordVPN) (data : Str) :
    (self.getGroups data).groups =
        customGroups.filter (fun group => decide (group.name ∈ NordVPN.available data)) ∧
    (self.getGroups data).groups.Sublist customGroups ∧
    (self.getGroups data).groups.Nodup ∧
    (∀ g, g ∈ (self.getGroups data).groups ↔
      (g ∈ customGroups ∧ g.name ∈ NordVPN.available data)) ∧
    (self.getGroups "P2P,Double_VPN-Onion_Over_VPN".toList).groups =
      [ { name := "P2P".toList, label := "P2P".toList },
        { name := "Double_VPN".toList, label := "Double VPN".toList },
        { name := "Onion_Over_VPN".toList, label := "Onion".toList } ] ∧
    (self.getGroups "P2P,Foo,P2P".toList).groups =
      [ { name := "P2P".toList, label := "P2P".toList } ] := by
  refine ⟨rfl, ?_, ?_, ?_, ?_, ?_⟩
  · rw [getGroups_groups]
    exact List.filter_sublist _
  · rw [getGroups_groups]
    exact customGroups_nodup.sublist (List.filter_sublist _)
  · intro g
    rw [getGroups_groups, List.mem_filter]
    simp
  · rw [getGroups_groups]
    decide
  · rw [getGroups_groups]
    decide

/-- C10, as stated, fails on the output "P2P\nDouble_VPN": there the names P2P
and Double_VPN are tokens delimited by a newline and the ends of the text, and
`getGroups` returns the empty list, so it is not the case that a static group
is returned if and only if its name is a token delimited by commas, hyphens or
white space. -/
theorem getGroups_newline_is_no_delimiter :
    (NordVPN.new.getGroups "P2P\nDouble_VPN".toList).groups = [] ∧
    OccursAsToken isCommaHyphenOrSpace "P2P".toList "P2P\nDouble_VPN".toList ∧
    OccursAsToken isCommaHyphenOrSpace "Double_VPN".toList "P2P\nDouble_VPN".toList ∧
    ¬ (∀ g ∈ customGroups,
        g ∈ (NordVPN.new.getGroups "P2P\nDouble_VPN".toList).groups ↔
          OccursAsToken isCommaHyphenOrSpace g.name "P2P\nDouble_VPN".toList) := by
  have hnil : (NordVPN.new.getGroups "P2P\nDouble_VPN".toList).groups = [] := by decide
  have hP : OccursAsToken isCommaHyphenOrSpace "P2P".toList "P2P\nDouble_VPN".toList := by
    refine ⟨by decide, by decide, [], "\nDouble_VPN".toList, by decide, by simp, ?_⟩
    intro c hc
    have h : "\nDouble_VPN".toList.head? = some '\n' := by decide
    rw [h] at hc
    cases hc
    decide
  have hD : OccursAsToken isCommaHyphenOrSpace "Double_VPN".toList
      "P2P\nDouble_VPN".toList := by
    refine ⟨by decide, by decide, "P2P\n".toList, [], by decide, ?_, by simp⟩
    intro c hc
    have h : "P2P\n".toList.getLast? = some '\n' := by decide
    rw [h] at hc
    cases hc
    decide
  refine ⟨hnil, hP, hD, ?_⟩
  intro hall
  have hmem := (hall { name := "P2P".toList, label := "P2P".toList } (by decide)).mpr hP
  rw [hnil] at hmem
  cases hmem

/-- C10, amended. The tokens of `getGroups` are delimited by commas, hyphens,
carriage returns and spaces (a tab or a newline inside the text delimits
nothing), in the output with the white space around it trimmed: a static group
is returned if and only if its name occurs in the trimmed output as a token
delimited by these four characters or the ends of the text, and an output in
which no static name is such a token yields the empty list. -/
theorem getGroups_iff_name_is_token (self : NordVPN) (data : Str) :
    (∀ g, g ∈ (self.getGroups data).groups ↔
      (g ∈ customGroups ∧ OccursAsToken isTokenDelim g.name (trim data))) ∧
    ((∀ g ∈ customGroups, ¬ OccursAsToken isTokenDelim g.name (trim data)) →
      (self.getGroups data).groups = []) := by
  have h : ∀ g, g ∈ (self.getGroups data).groups ↔
      (g ∈ customGroups ∧ OccursAsToken isTokenDelim g.name (trim data)) := by
    intro g
    rw [getGroups_groups, List.mem_filter, ← mem_available_iff]
    simp
  refine ⟨h, ?_⟩
  intro hno
  apply List.eq_nil_iff_forall_not_mem.mpr
  intro g hg
  exact hno g ((h g).mp hg).1 ((h g).mp hg).2

/-! ## Lines of the output and lines of the trimmed output -/

theorem padded_refl (x : Str) : Padded x x :=
  ⟨[], [], by simp, by simp, by simp⟩

/-- The pieces of a concatenation: the last piece of the first text and the
head piece of the second are joined. -/
theorem split_append (sep : Char) (a : Str) :
    ∃ A la, split sep a = A ++ [la] ∧
      ∀ b hb B, split sep b = hb :: B → split sep (a ++ b) = A ++ [la ++ hb] ++ B := by
  induction a with
  | nil =>
    refine ⟨[], [], rfl, ?_⟩
    intro b hb B hB
    simpa using hB
  | cons c a ih =>
    obtain ⟨A, la, hA, hab⟩ := ih
    by_cases hc : c = sep
    · subst hc
      refine ⟨[] :: A, la, by rw [split_cons_sep, hA]; rfl, ?_⟩
      intro b hb B hB
      rw [List.cons_append, split_cons_sep, hab b hb B hB]
      rfl
    · cases A with
      | nil =>
        refine ⟨[], c :: la, by rw [split_cons_of_ne _ _ _ hc, hA]; rfl, ?_⟩
        intro b hb B hB
        rw [List.cons_append, split_cons_of_ne _ _ _ hc, hab b hb B hB]
        rfl
      | cons x A =>
        refine ⟨(c :: x) :: A, la, by rw [split_cons_of_ne _ _ _ hc, hA]; rfl, ?_⟩
        intro b hb B hB
        rw [List.cons_append, split_cons_of_ne _ _ _ hc, hab b hb B hB]
        rfl

theorem all_ws_of_within {w l : Str} (hw : ∀ c ∈ w, isWhiteSpace c = true) (hl : l <:+: w) :
    ∀ c ∈ l, isWhiteSpace c = true :=
  fun c hc => hw c (hl.subset hc)

/-- The output is its trimmed text between two stretches of white space. -/
theorem trim_decompose (data : Str) :
    ∃ w1 w2 : Str, (∀ c ∈ w1, isWhiteSpace c = true) ∧ (∀ c ∈ w2, isWhiteSpace c = true) ∧
      data = w1 ++ trim data ++ w2 := by
  refine ⟨data.takeWhile isWhiteSpace,
    ((data.dropWhile isWhiteSpace).reverse.takeWhile isWhiteSpace).reverse, ?_, ?_, ?_⟩
  · intro c hc
    exact List.mem_takeWhile_imp hc
  · intro c hc
    exact List.mem_takeWhile_imp (List.mem_reverse.mp hc)
  · unfold trim trimEnd trimStart
    rw [List.append_assoc, ← List.reverse_append, List.takeWhile_append_dropWhile,
      List.reverse_reverse, List.takeWhile_append_dropWhile]

theorem forall₂_padded_refl (l : List Str) : List.Forall₂ Padded l l := by
  induction l with
  | nil => exact List.Forall₂.nil
  | cons x l ih => exact List.Forall₂.cons (padded_refl x) ih

/-- The lines of the output are the lines of the trimmed output, each possibly
padded with white space, between lines of white space. -/
theorem lines_of_output (data : Str) :
    ∃ P L Q : List Str, split '\n' data = P ++ L ++ Q ∧
      List.Forall₂ Padded (statusLines data) L ∧
      (∀ l ∈ P, ∀ c ∈ l, isWhiteSpace c = true) ∧
      (∀ l ∈ Q, ∀ c ∈ l, isWhiteSpace c = true) := by
  obtain ⟨w1, w2, hw1, hw2, hdata⟩ := trim_decompose data
  obtain ⟨A1, la1, hA1, h1⟩ := split_append '\n' w1
  obtain ⟨A, la, hA, h2⟩ := split_append '\n' (trim data)
  have hla1 : ∀ c ∈ la1, isWhiteSpace c = true :=
    all_ws_of_within hw1 (mem_split_within '\n' w1 la1 (by rw [hA1]; simp))
  have hP : ∀ l ∈ A1, ∀ c ∈ l, isWhiteSpace c = true := fun l hl =>
    all_ws_of_within hw1 (mem_split_within '\n' w1 l (by rw [hA1]; simp [hl]))
  cases hsw2 : split '\n' w2 with
  | nil => exact absurd hsw2 (split_ne_nil _ _)
  | cons hb B =>
    have hhb : ∀ c ∈ hb, isWhiteSpace c = true :=
      all_ws_of_within hw2 (mem_split_within '\n' w2 hb (by rw [hsw2]; simp))
    have hQ : ∀ l ∈ B, ∀ c ∈ l, isWhiteSpace c = true := fun l hl =>
      all_ws_of_within hw2 (mem_split_within '\n' w2 l (by rw [hsw2]; simp [hl]))
    have hmid := h2 w2 hb B hsw2
    have hsl : statusLines data = A ++ [la] := hA
    cases A with
    | nil =>
      have hraw := h1 (trim data ++ w2) (la ++ hb) B (by rw [hmid]; rfl)
      refine ⟨A1, [la1 ++ (la ++ hb)], B, ?_, ?_, hP, hQ⟩
      · rw [hdata, List.append_assoc, hraw]
      · rw [hsl]
        exact List.Forall₂.cons ⟨la1, hb, hla1, hhb, by simp⟩ List.Forall₂.nil
    | cons x A =>
      have hraw := h1 (trim data ++ w2) x (A ++ [la ++ hb] ++ B) (by rw [hmid]; rfl)
      refine ⟨A1, (la1 ++ x) :: (A ++ [la ++ hb]), B, ?_, ?_, hP, hQ⟩
      · rw [hdata, List.append_assoc, hraw]
        simp
      · rw [hsl]
        refine List.Forall₂.cons ⟨la1, [], hla1, by simp, by simp⟩ ?_
        exact List.rel_append (forall₂_padded_refl A)
          (List.Forall₂.cons ⟨[], hb, by simp, hhb, by simp⟩ List.Forall₂.nil)

theorem isPrefixOf_cons_ws (m u : Str) (w : Char) (hm : IsMarker m)
    (hw : isWhiteSpace w = true) : m.isPrefixOf (w :: u) = false := by
  obtain ⟨hne, hall⟩ := hm
  cases m with
  | nil => exact absurd rfl hne
  | cons a m =>
    have ha : isWhiteSpace a = false := hall a (List.mem_cons_self _ _)
    have : a ≠ w := by
      intro h; rw [h, hw] at ha; cases ha
    simp [List.isPrefixOf, this]

theorem includes_ws_append (m u x : Str) (hm : IsMarker m)
    (hu : ∀ c ∈ u, isWhiteSpace c = true) : includes m (u ++ x) = includes m x := by
  induction u with
  | nil => rfl
  | cons w u ih =>
    rw [List.cons_append, includes,
      isPrefixOf_cons_ws m _ w hm (hu w (List.mem_cons_self _ _)),
      ih (fun c hc => hu c (List.mem_cons_of_mem _ hc))]
    rfl

theorem replace_ws_append (m r u x : Str) (hm : IsMarker m)
    (hu : ∀ c ∈ u, isWhiteSpace c = true) : replace m r (u ++ x) = u ++ replace m r x := by
  induction u with
  | nil => rfl
  | cons w u ih =>
    rw [List.cons_append, replace,
      isPrefixOf_cons_ws m _ w hm (hu w (List.mem_cons_self _ _)),
      ih (fun c hc => hu c (List.mem_cons_of_mem _ hc))]
    simp

/-- A marker that begins a text followed by white space lies before the white
space. -/
theorem prefix_of_prefix_append_ws (m x v : Str) (hm : IsMarker m)
    (hv : ∀ c ∈ v, isWhiteSpace c = true) (h : m <+: x ++ v) : m <+: x := by
  rcases List.prefix_or_prefix_of_prefix h (List.prefix_append x v) with h1 | h1
  · exact h1
  · obtain ⟨t, ht⟩ := h1
    obtain ⟨s, hs⟩ := h
    rcases List.eq_nil_or_concat t with rfl | ⟨t0, c, rfl⟩
    · rw [List.append_nil] at ht
      rw [← ht]
    · exfalso
      rw [List.concat_eq_append] at ht
      have hc : c ∈ v := by
        have e : x ++ ((t0 ++ [c]) ++ s) = x ++ v := by
          rw [← List.append_assoc, ht, hs]
        have e2 := List.append_cancel_left e
        rw [← e2]
        simp
      have hcm : c ∈ m := by rw [← ht]; simp
      have := hm.2 c hcm
      rw [hv c hc] at this
      cases this

theorem includes_append_ws (m x v : Str) (hm : IsMarker m)
    (hv : ∀ c ∈ v, isWhiteSpace c = true) : includes m (x ++ v) = includes m x := by
  induction x with
  | nil =>
    rw [List.nil_append]
    have h := includes_ws_append m v [] hm hv
    rw [List.append_nil] at h
    exact h
  | cons c x ih =>
    rw [List.cons_append, includes, includes, ih]
    congr 1
    rw [Bool.eq_iff_iff, isPrefixOf_iff, isPrefixOf_iff]
    constructor
    · intro h
      exact prefix_of_prefix_append_ws m (c :: x) v hm hv h
    · intro h
      exact h.trans (List.prefix_append _ _)

theorem replace_append_ws (m r x v : Str) (hm : IsMarker m)
    (hv : ∀ c ∈ v, isWhiteSpace c = true) (hinc : includes m x = true) :
    replace m r (x ++ v) = replace m r x ++ v := by
  induction x with
  | nil =>
    exfalso
    have := includes_ne_nil hm.1 hinc
    exact this rfl
  | cons c x ih =>
    rw [List.cons_append, replace, replace]
    by_cases hp : m.isPrefixOf (c :: x) = true
    · have hp2 : m.isPrefixOf (c :: (x ++ v)) = true := by
        rw [isPrefixOf_iff] at hp ⊢
        exact hp.trans (List.prefix_append (c :: x) v)
      rw [if_pos hp, if_pos hp2]
      have hlen : m.length ≤ (c :: x).length := ((isPrefixOf_iff _ _).mp hp).length_le
      rw [← List.cons_append, List.drop_append_of_le_length hlen, List.append_assoc]
    · have hp2 : ¬ m.isPrefixOf (c :: (x ++ v)) = true := by
        intro h
        apply hp
        rw [isPrefixOf_iff] at h ⊢
        exact prefix_of_prefix_append_ws m (c :: x) v hm hv h
      rw [if_neg hp, if_neg hp2]
      have hinc' : includes m x = true := by
        rw [includes] at hinc
        simpa [hp] using hinc
      rw [ih hinc']
      rfl

theorem trim_append_ws (y v : Str) (hv : ∀ c ∈ v, isWhiteSpace c = true) :
    trim (y ++ v) = trim y := by
  unfold trim
  have hd : trimStart (y ++ v) =
      if (trimStart y).isEmpty then trimStart v else trimStart y ++ v := List.dropWhile_append
  rw [hd]
  by_cases he : (trimStart y).isEmpty = true
  · rw [if_pos he]
    have h1 : trimStart v = [] := dropWhile_all v hv
    have h2 : trimStart y = [] := List.isEmpty_iff.mp he
    rw [h1, h2]
  · rw [if_neg he]
    exact trimEnd_append_ws _ _ hv

theorem trim_padded (u y v : Str) (hu : ∀ c ∈ u, isWhiteSpace c = true)
    (hv : ∀ c ∈ v, isWhiteSpace c = true) : trim (u ++ y ++ v) = trim y := by
  rw [trim_append_ws _ _ hv]
  unfold trim
  rw [trimStart_append_ws _ _ hu]

theorem not_isDigit_of_isWhiteSpace (c : Char) (h : isWhiteSpace c = true) :
    isDigit c = false := by
  unfold isWhiteSpace at h
  unfold isDigit
  simp only [Bool.or_eq_true, Bool.and_eq_true, decide_eq_true_eq] at h
  simp only [Bool.and_eq_false_imp, decide_eq_true_eq, decide_eq_false_iff_not, not_le]
  intro h1
  omega

theorem takeWhile_append_of_none (p : Char → Bool) (a v : Str) (ha : a ≠ [])
    (hp : ∀ c ∈ v, p c = false) (hh : ∀ c, a.head? = some c → p c = true) :
    (a ++ v).takeWhile p = a.takeWhile p := by
  induction a with
  | nil => exact absurd rfl ha
  | cons x a ih =>
    rw [List.cons_append, List.takeWhile_cons, List.takeWhile_cons]
    cases hx : p x with
    | false => rfl
    | true =>
      simp only [if_true]
      congr 1
      clear ih hh ha hx
      induction a with
      | nil =>
        cases v with
        | nil => rfl
        | cons w v => simp [List.takeWhile_cons, hp w (List.mem_cons_self _ _)]
      | cons y a ih2 =>
        rw [List.cons_append, List.takeWhile_cons, List.takeWhile_cons, ih2]

theorem matchDigits_padded (u x v : Str) (hu : ∀ c ∈ u, isWhiteSpace c = true)
    (hv : ∀ c ∈ v, isWhiteSpace c = true) : matchDigits (u ++ x ++ v) = matchDigits x := by
  unfold matchDigits
  have hu' : ∀ c ∈ u, (fun c => !isDigit c) c = true := by
    intro c hc; simp [not_isDigit_of_isWhiteSpace c (hu c hc)]
  have hv' : ∀ c ∈ v, (fun c => !isDigit c) c = true := by
    intro c hc; simp [not_isDigit_of_isWhiteSpace c (hv c hc)]
  rw [List.append_assoc, dropWhile_append_of_all u _ hu', List.dropWhile_append]
  cases hx : x.dropWhile (fun c => !isDigit c) with
  | nil =>
    simp only [List.isEmpty_nil, if_true]
    rw [dropWhile_all v hv']
  | cons d ds =>
    simp only [List.isEmpty_cons, Bool.false_eq_true, if_false, List.cons_append]
    have hd : isDigit d = true := by
      have := List.head_dropWhile_not (fun c => !isDigit c) x (by rw [hx]; simp)
      simp only [hx, List.head_cons, Bool.not_eq_true, Bool.not_eq_false_eq_eq_true] at this
      simpa using this
    have := takeWhile_append_of_none isDigit (d :: ds) v (by simp)
      (fun c hc => not_isDigit_of_isWhiteSpace c (hv c hc))
      (by intro c hc; simp at hc; rw [← hc]; exact hd)
    rw [List.cons_append] at this
    rw [this]

theorem includes_ws_only (m l : Str) (hm : IsMarker m) (hl : ∀ c ∈ l, isWhiteSpace c = true) :
    includes m l = false := by
  have h := includes_ws_append m l [] hm hl
  rw [List.append_nil] at h
  rw [h]
  cases hi : includes m [] with
  | false => rfl
  | true => exact absurd rfl (includes_ne_nil hm.1 hi)

theorem includes_padded (m : Str) (hm : IsMarker m) (x y : Str) (h : Padded x y) :
    includes m y = includes m x := by
  obtain ⟨u, v, hu, hv, rfl⟩ := h
  rw [includes_append_ws m _ v hm hv, includes_ws_append m u x hm hu]

theorem find?_map_of_forall₂ {α β : Type} (R : α → α → Prop) (p : α → Bool) (g : α → β)
    (hp : ∀ x y, R x y → p y = p x) (hg : ∀ x y, R x y → p x = true → g y = g x)
    (l1 l2 : List α) (h : List.Forall₂ R l1 l2) :
    (l2.find? p).map g = (l1.find? p).map g := by
  induction h with
  | nil => rfl
  | @cons x y t1 t2 hxy _ ih =>
    rw [List.find?_cons, List.find?_cons, hp x y hxy]
    cases hx : p x with
    | true => simp [hg x y hxy hx]
    | false => exact ih

/-- A value read off the first line containing a marker is the same whether the
lines are those of the output or those of the trimmed output, when the value
does not depend on white space around the line. -/
theorem outputLine_map {β : Type} (m : Str) (hm : IsMarker m) (g : Str → β)
    (hg : ∀ x y, Padded x y → includes m x = true → g y = g x) (data : Str) :
    (outputLine m data).map g = (fieldLine m data).map g := by
  obtain ⟨P, L, Q, hsplit, hrel, hP, hQ⟩ := lines_of_output data
  have hPn : P.find? (fun line => includes m line) = none :=
    find?_eq_none_of_all_false _ _ (fun l hl => includes_ws_only m l hm (hP l hl))
  have hQn : Q.find? (fun line => includes m line) = none :=
    find?_eq_none_of_all_false _ _ (fun l hl => includes_ws_only m l hm (hQ l hl))
  unfold outputLine fieldLine
  rw [hsplit, List.find?_append, List.find?_append, hPn, hQn]
  simp only [Option.none_or, Option.or_none]
  exact find?_map_of_forall₂ Padded _ g (fun x y h => includes_padded m hm x y h) hg _ _ hrel

theorem isMarker_Status : IsMarker "Status:".toList := by
  refine ⟨by decide, by decide⟩

theorem isMarker_server : IsMarker "server:".toList := by
  refine ⟨by decide, by decide⟩

theorem isMarker_Country : IsMarker "Country:".toList := by
  refine ⟨by decide, by decide⟩

theorem isMarker_City : IsMarker "City:".toList := by
  refine ⟨by decide, by decide⟩

theorem trim_replace_padded (m : Str) (hm : IsMarker m) (x y : Str) (h : Padded x y)
    (hinc : includes m x = true) : trim (replace m [] y) = trim (replace m [] x) := by
  obtain ⟨u, v, hu, hv, rfl⟩ := h
  rw [List.append_assoc, replace_ws_append m [] u _ hm hu, replace_append_ws m [] x v hm hv hinc,
    ← List.append_assoc, trim_padded _ _ _ hu hv]

theorem getD_map_eq_match {β : Type} (o : Option Str) (g : Str → β) (d : β) :
    (o.map g).getD d =
      (match o with
        | some line => g line
        | none => d) := by
  cases o <;> rfl

theorem match_of_map_eq {β : Type} (o1 o2 : Option Str) (g : Str → β) (d : β)
    (h : o1.map g = o2.map g) :
    (o2.map g).getD d = (o1.map g).getD d := by
  rw [h]

/-- The fields of the status, read off the lines of either view. -/
theorem fields_of_view (view : Str → List Str) (hview : IsLineView view) (data : Str) :
    statusWord data =
      (match (view data).find? (fun line => includes "Status:".toList line) with
        | some line => trim (replace "Status:".toList [] line)
        | none => "Unknown".toList) ∧
    (∀ m, IsMarker m → textField m data =
      (match (view data).find? (fun line => includes m line) with
        | some line => Value.str (trim (replace m [] line))
        | none => Value.str "Unknown".toList)) ∧
    serverNumberField data =
      (match (view data).find? (fun line => includes "server:".toList line) with
        | some line =>
          (match matchDigits line with
            | some text => Value.matchArray text
            | none => Value.null)
        | none => Value.str "Unknown".toList) := by
  rcases hview with rfl | rfl
  · refine ⟨?_, ?_, ?_⟩
    · unfold statusWord
      rw [← getD_map_eq_match, ← getD_map_eq_match]
      exact match_of_map_eq _ _ _ _
        (outputLine_map _ isMarker_Status (fun l => trim (replace "Status:".toList [] l))
          (fun x y h hi => trim_replace_padded _ isMarker_Status x y h hi) data)
    · intro m hm
      unfold textField
      rw [← getD_map_eq_match, ← getD_map_eq_match]
      exact match_of_map_eq _ _ _ _
        (outputLine_map m hm (fun l => Value.str (trim (replace m [] l)))
          (fun x y h hi => by
            show Value.str _ = Value.str _
            rw [trim_replace_padded m hm x y h hi]) data)
    · unfold serverNumberField
      rw [← getD_map_eq_match, ← getD_map_eq_match]
      exact match_of_map_eq _ _ _ _
        (outputLine_map _ isMarker_server
          (fun l =>
            match matchDigits l with
            | some text => Value.matchArray text
            | none => Value.null)
          (fun x y h _ => by
            obtain ⟨u, v, hu, hv, rfl⟩ := h
            show (match matchDigits (u ++ x ++ v) with
              | some text => Value.matchArray text
              | none => Value.null) = _
            rw [matchDigits_padded u x v hu hv]) data)
  · exact ⟨rfl, fun _ _ => rfl, rfl⟩

/-! ## Claims on the status word and on a missing Country line -/

theorem getStatus_connected_iff (self : NordVPN) (data : Str) :
    ∃ st, self.getStatus data = Except.ok st ∧
      (st.connected = true ↔ toUpperCase (statusWord data) = NordVPN.CONNECTED) := by
  refine ⟨_, getStatus_eq self data, ?_⟩
  by_cases hc : toUpperCase (statusWord data) = NordVPN.CONNECTED
  · rw [if_pos hc]
    exact ⟨fun _ => hc, fun _ => rfl⟩
  · rw [if_neg hc]
    exact ⟨fun h => Bool.noConfusion h, fun h => absurd h hc⟩

theorem statusWord_connected_iff (view : Str → List Str) (hview : IsLineView view)
    (data : Str) :
    toUpperCase (statusWord data) = NordVPN.CONNECTED ↔
      ∃ line, (view data).find? (fun line => includes "Status:".toList line) = some line ∧
        eqIgnoreCase (trim (replace "Status:".toList [] line)) "CONNECTED".toList := by
  rw [toUpperCase_eq_CONNECTED_iff, (fields_of_view view hview data).1]
  cases (view data).find? (fun line => includes "Status:".toList line) with
  | none =>
    have hno : ¬ eqIgnoreCase "Unknown".toList "CONNECTED".toList := by decide
    simp only [reduceCtorEq, false_and, exists_false, iff_false]
    exact hno
  | some line => simp

/-- C4. For every status text, `getStatus` returns `connected = true` if and
only if there is a status word (the first line containing "Status:", with
"Status:" removed and the white space around trimmed) and it equals
"CONNECTED" ignoring letter case, with nothing else in it. The first line is
taken among the lines of the output as it came, and equally among the lines of
the trimmed output. The status words "Connected to X" and "Connecting" give
`connected = false`. -/
theorem connected_iff_status_word_is_connected (self : NordVPN) (data : Str) :
    (∃ st, self.getStatus data = Except.ok st ∧
      (st.connected = true ↔
        ∃ line, outputLine "Status:".toList data = some line ∧
          eqIgnoreCase (trim (replace "Status:".toList [] line)) "CONNECTED".toList) ∧
      (st.connected = true ↔
        ∃ line, fieldLine "Status:".toList data = some line ∧
          eqIgnoreCase (trim (replace "Status:".toList [] line)) "CONNECTED".toList)) ∧
    (self.getStatus "Status: Connected to X".toList).map VPNStatus.connected = Except.ok false ∧
    (self.getStatus "Status: Connecting".toList).map VPNStatus.connected = Except.ok false := by
  obtain ⟨st, hst, hiff⟩ := getStatus_connected_iff self data
  refine ⟨⟨st, hst, ?_, ?_⟩, ?_, ?_⟩
  · exact hiff.trans (statusWord_connected_iff _ (Or.inl rfl) data)
  · exact hiff.trans (statusWord_connected_iff _ (Or.inr rfl) data)
  · rw [getStatus_eq]
    have hno : ¬ toUpperCase (statusWord "Status: Connected to X".toList) = NordVPN.CONNECTED := by
      decide
    rw [if_neg hno]
    rfl
  · rw [getStatus_eq]
    have hno : ¬ toUpperCase (statusWord "Status: Connecting".toList) = NordVPN.CONNECTED := by
      decide
    rw [if_neg hno]
    rfl

/-- C5. For every status text whose status word (read off the first line
containing "Status:", of the output as it came or of the trimmed output) is
"Disconnected" in any letter case, and for every handler state (whatever group
it remembers), `getStatus` returns `connected = false` and
`group = "Standard"`. -/
theorem disconnected_word_gives_standard_group (self : NordVPN) (data line : Str)
    (hline : outputLine "Status:".toList data = some line ∨
      fieldLine "Status:".toList data = some line)
    (hword : eqIgnoreCase (trim (replace "Status:".toList [] line)) "Disconnected".toList) :
    ∃ st, self.getStatus data = Except.ok st ∧ st.connected = false ∧
      st.group = "Standard".toList := by
  refine ⟨_, getStatus_eq self data, ?_⟩
  have hw : statusWord data = trim (replace "Status:".toList [] line) := by
    rcases hline with h | h
    · rw [(fields_of_view _ (Or.inl rfl) data).1]
      unfold outputLine at h
      rw [h]
    · unfold statusWord; rw [h]
  have hno : ¬ toUpperCase (statusWord data) = NordVPN.CONNECTED := by
    rw [toUpperCase_eq_CONNECTED_iff, hw]
    intro hc
    unfold eqIgnoreCase at hc hword
    rw [hword] at hc
    revert hc
    decide
  rw [if_neg hno]
  exact ⟨rfl, rfl⟩

theorem disconnected_word_gives_standard_group_witness :
    ∃ st, NordVPN.getStatus { groups := customGroups, group := "P2P".toList }
        "\n Status: DisConnected \nHint: none\n".toList = Except.ok st ∧
      st.connected = false ∧ st.group = "Standard".toList :=
  disconnected_word_gives_standard_group { groups := customGroups, group := "P2P".toList }
    "\n Status: DisConnected \nHint: none\n".toList " Status: DisConnected ".toList
    (Or.inl (by decide)) (by decide)

theorem find?_includes_insert (marker cl : Str) (ls1 ls2 : List Str) (hcl : ¬ marker <:+: cl) :
    (ls1 ++ cl :: ls2).find? (fun line => includes marker line) =
      (ls1 ++ ls2).find? (fun line => includes marker line) := by
  apply find?_insert_of_false
  cases hi : includes marker cl with
  | false => rfl
  | true => exact absurd ((includes_iff_occurs _ _).mp hi) hcl

/-- C6. For every connected status text with no line containing "Country:",
`getStatus` returns `country = "Unknown"`, while the status word, the city and
the server number are exactly what the lines present give. The status is the
first line containing "Status:" with "Status:" removed and trimmed, and it is
"CONNECTED" up to letter case. The city is read in the same way off the first
line containing "City:" (it is `Y` when that line is `City: Y`, and "Unknown"
when there is no such line). The server number is the match of the first run
of digits in the first line containing "server:" (`null` when that line has no
digit, "Unknown" when there is no such line). These are the same values as for
the text with a Country line added (`data2`, whose lines are those of `data`
with one more line `cl` that contains "Country:" and none of the other
markers), for which the country is read off the added line. The lines are
those of the output as it came, or those of the trimmed output. -/
theorem country_unknown_other_fields_unchanged (self : NordVPN) (data data2 cl : Str)
    (ls1 ls2 : List Str)
    (hlines : (split '\n' data = ls1 ++ ls2 ∧ split '\n' data2 = ls1 ++ cl :: ls2) ∨
      (statusLines data = ls1 ++ ls2 ∧ statusLines data2 = ls1 ++ cl :: ls2))
    (hno : ∀ line ∈ ls1 ++ ls2, ¬ "Country:".toList <:+: line)
    (hcl : "Country:".toList <:+: cl)
    (hclS : ¬ "Status:".toList <:+: cl) (hclY : ¬ "City:".toList <:+: cl)
    (hclN : ¬ "server:".toList <:+: cl)
    (hconn : (self.getStatus data).map VPNStatus.connected = Except.ok true) :
    ∃ st st2, self.getStatus data = Except.ok st ∧ self.getStatus data2 = Except.ok st2 ∧
      st.country = Value.str "Unknown".toList ∧
      st2.country = Value.str (trim (replace "Country:".toList [] cl)) ∧
      st.connected = true ∧ st2.connected = true ∧
      st.status = st2.status ∧ st.city = st2.city ∧ st.serverNumber = st2.serverNumber ∧
      st.group = st2.group ∧
      (∃ line, firstLineWith "Status:".toList (ls1 ++ ls2) = some line ∧
        st.status = trim (replace "Status:".toList [] line)) ∧
      eqIgnoreCase st.status "CONNECTED".toList ∧
      st.city =
        (match firstLineWith "City:".toList (ls1 ++ ls2) with
          | some line => Value.str (trim (replace "City:".toList [] line))
          | none => Value.str "Unknown".toList) ∧
      (∀ Y, firstLineWith "City:".toList (ls1 ++ ls2) = some ("City: ".toList ++ Y) →
        isTrimmed Y = true → st.city = Value.str Y) ∧
      st.serverNumber =
        (match firstLineWith "server:".toList (ls1 ++ ls2) with
          | some line =>
            (match matchDigits line with
              | some text => Value.matchArray text
              | none => Value.null)
          | none => Value.str "Unknown".toList) ∧
      (∀ pre digits post,
        firstLineWith "server:".toList (ls1 ++ ls2) = some (pre ++ digits ++ post) →
        (∀ c ∈ pre, isDigit c = false) → digits ≠ [] → (∀ c ∈ digits, isDigit c = true) →
        (∀ c, post.head? = some c → isDigit c = false) →
        st.serverNumber = Value.matchArray digits) := by
  have hv : ∃ view, IsLineView view ∧ view data = ls1 ++ ls2 ∧ view data2 = ls1 ++ cl :: ls2 := by
    rcases hlines with ⟨h1, h2⟩ | ⟨h1, h2⟩
    · exact ⟨_, Or.inl rfl, h1, h2⟩
    · exact ⟨_, Or.inr rfl, h1, h2⟩
  obtain ⟨view, hview, h1, h2⟩ := hv
  obtain ⟨fw, ft, fn⟩ := fields_of_view view hview data
  obtain ⟨fw2, ft2, fn2⟩ := fields_of_view view hview data2
  have hw : statusWord data2 = statusWord data := by
    rw [fw, fw2, h1, h2, find?_includes_insert _ cl ls1 ls2 hclS]
  have hcity : textField "City:".toList data2 = textField "City:".toList data := by
    rw [ft _ isMarker_City, ft2 _ isMarker_City, h1, h2, find?_includes_insert _ cl ls1 ls2 hclY]
  have hnum : serverNumberField data2 = serverNumberField data := by
    rw [fn, fn2, h1, h2, find?_includes_insert _ cl ls1 ls2 hclN]
  have hnone : ∀ l ∈ ls1 ++ ls2, includes "Country:".toList l = false := by
    intro l hl
    cases hi : includes "Country:".toList l with
    | false => rfl
    | true => exact absurd ((includes_iff_occurs _ _).mp hi) (hno l hl)
  have hcU : textField "Country:".toList data = Value.str "Unknown".toList := by
    rw [ft _ isMarker_Country, h1, find?_eq_none_of_all_false _ _ hnone]
  have hc2 : textField "Country:".toList data2 =
      Value.str (trim (replace "Country:".toList [] cl)) := by
    have hinc := (includes_iff_occurs _ _).mpr hcl
    rw [ft2 _ isMarker_Country, h2, List.find?_append,
      find?_eq_none_of_all_false _ ls1 (fun l hl => hnone l (List.mem_append_left _ hl))]
    simp only [List.find?_cons, hinc, Option.none_or]
  have hup : toUpperCase (statusWord data) = NordVPN.CONNECTED := by
    rw [getStatus_eq] at hconn
    by_contra hne
    rw [if_neg hne] at hconn
    cases hconn
  -- the values of the fields, read off the lines
  have vstatus : ∃ line, firstLineWith "Status:".toList (ls1 ++ ls2) = some line ∧
      statusWord data = trim (replace "Status:".toList [] line) := by
    obtain ⟨line, hline, -⟩ := (statusWord_connected_iff view hview data).mp hup
    rw [h1] at hline
    refine ⟨line, hline, ?_⟩
    rw [fw, h1, hline]
  have vcase : eqIgnoreCase (statusWord data) "CONNECTED".toList :=
    (toUpperCase_eq_CONNECTED_iff _).mp hup
  have vcity : textField "City:".toList data =
      (match firstLineWith "City:".toList (ls1 ++ ls2) with
        | some line => Value.str (trim (replace "City:".toList [] line))
        | none => Value.str "Unknown".toList) := by
    rw [ft _ isMarker_City, h1]
    rfl
  have vcityY : ∀ Y, firstLineWith "City:".toList (ls1 ++ ls2) = some ("City: ".toList ++ Y) →
      isTrimmed Y = true → textField "City:".toList data = Value.str Y := by
    intro Y hY hT
    rw [vcity, hY]
    show Value.str (trim (' ' :: Y)) = _
    rw [trim_space_cons Y hT]
  have vnum : serverNumberField data =
      (match firstLineWith "server:".toList (ls1 ++ ls2) with
        | some line =>
          (match matchDigits line with
            | some text => Value.matchArray text
            | none => Value.null)
        | none => Value.str "Unknown".toList) := by
    rw [fn, h1]
    rfl
  have vnumRun : ∀ pre digits post,
      firstLineWith "server:".toList (ls1 ++ ls2) = some (pre ++ digits ++ post) →
      (∀ c ∈ pre, isDigit c = false) → digits ≠ [] → (∀ c ∈ digits, isDigit c = true) →
      (∀ c, post.head? = some c → isDigit c = false) →
      serverNumberField data = Value.matchArray digits := by
    intro pre digits post hline hpre hne hd hpost
    rw [vnum, hline]
    simp only [matchDigits_of_run pre digits post hpre hne hd hpost]
  refine ⟨_, _, getStatus_eq self data, getStatus_eq self data2, ?_⟩
  rw [hw, hcity, hnum, hcU, hc2, if_pos hup, if_pos hup]
  exact ⟨rfl, rfl, rfl, rfl, rfl, rfl, rfl, rfl, vstatus, vcase, vcity, vcityY, vnum, vnumRun⟩

theorem country_unknown_other_fields_unchanged_witness :
    ∃ st st2,
      NordVPN.new.getStatus "Status: Connected\nCity: Oslo\nCurrent server: no42\n".toList =
        Except.ok st ∧
      NordVPN.new.getStatus
        "Status: Connected\nCountry: Norway\nCity: Oslo\nCurrent server: no42\n".toList =
        Except.ok st2 ∧
      st.country = Value.str "Unknown".toList ∧
      st2.country = Value.str "Norway".toList ∧
      st.connected = true ∧ st2.connected = true ∧
      st.status = "Connected".toList ∧ st2.status = "Connected".toList ∧
      st.city = Value.str "Oslo".toList ∧ st2.city = Value.str "Oslo".toList ∧
      st.serverNumber = Value.matchArray "42".toList ∧
      st2.serverNumber = Value.matchArray "42".toList ∧
      st.group = st2.group := by
  obtain ⟨st, st2, h1, h2, c1, c2, k1, k2, e1, e2, e3, e4, ⟨line, hline, hst⟩, -, -, hcity,
      -, hnum⟩ :=
    country_unknown_other_fields_unchanged NordVPN.new
      "Status: Connected\nCity: Oslo\nCurrent server: no42\n".toList
      "Status: Connected\nCountry: Norway\nCity: Oslo\nCurrent server: no42\n".toList
      "Country: Norway".toList
      ["Status: Connected".toList] ["City: Oslo".toList, "Current server: no42".toList, []]
      (Or.inl (And.intro (by decide) (by decide)))
      (by decide) (Exists.intro [] (Exists.intro " Norway".toList rfl))
      (by decide) (by decide) (by decide)
      (by decide)
  have hl : firstLineWith "Status:".toList
      (["Status: Connected".toList] ++
        ["City: Oslo".toList, "Current server: no42".toList, []]) =
      some "Status: Connected".toList := by decide
  rw [hl] at hline
  cases hline
  have s1 : st.status = "Connected".toList := by
    rw [hst]
    decide
  have y1 : st.city = Value.str "Oslo".toList := hcity "Oslo".toList (by decide) (by decide)
  have n1 : st.serverNumber = Value.matchArray "42".toList :=
    hnum "Current server: no".toList "42".toList [] (by decide) (by decide) (by decide)
      (by decide) (fun _ h => Option.noConfusion h)
  have c3 : st2.country = Value.str "Norway".toList := by
    rw [c2]
    decide
  exact ⟨st, st2, h1, h2, c1, c3, k1, k2, s1, e1 ▸ s1, y1, e2 ▸ y1, n1, e3 ▸ n1, e4⟩

/-! ## What `_connect`, `_disconnect` and `_update` change on the display -/

theorem stopTimer_frame (self : VPNStatusIndicator) :
    self.stopTimer.display = self.display ∧ self.stopTimer.vpnHandler = self.vpnHandler ∧
      self.stopTimer.spawned = self.spawned ∧ self.stopTimer.destroyed = self.destroyed ∧
      self.stopTimer._timerStep = self._timerStep ∧
      self.stopTimer.lastSource = self.lastSource := by
  unfold VPNStatusIndicator.stopTimer
  split
  · split
    · exact ⟨rfl, rfl, rfl, rfl, rfl, rfl⟩
    · exact ⟨rfl, rfl, rfl, rfl, rfl, rfl⟩
  · exact ⟨rfl, rfl, rfl, rfl, rfl, rfl⟩

theorem header_foldl_destroyItem (items : List Nat) (self : VPNStatusIndicator) :
    (items.foldl VPNStatusIndicator.destroyItem self).indicatorVisible = self.indicatorVisible ∧
      (items.foldl VPNStatusIndicator.destroyItem self).itemLabel = self.itemLabel := by
  induction items generalizing self with
  | nil => exact ⟨rfl, rfl⟩
  | cons i is ih =>
    simp only [List.foldl_cons]
    exact ⟨(ih _).1.trans rfl, (ih _).2.trans rfl⟩

theorem header_foldl_pushGroupAction (groups : List Group) (self : VPNStatusIndicator) :
    (groups.foldl VPNStatusIndicator.pushGroupAction self).indicatorVisible =
        self.indicatorVisible ∧
      (groups.foldl VPNStatusIndicator.pushGroupAction self).itemLabel = self.itemLabel := by
  induction groups generalizing self with
  | nil => exact ⟨rfl, rfl⟩
  | cons g gs ih =>
    simp only [List.foldl_cons]
    exact ⟨(ih _).1.trans rfl, (ih _).2.trans rfl⟩

theorem header_renderConnected (self : VPNStatusIndicator) :
    self.renderConnected.indicatorVisible = self.indicatorVisible ∧
      self.renderConnected.itemLabel = self.itemLabel := by
  unfold VPNStatusIndicator.renderConnected
  cases hda : self._disconnectAction <;> simp only [] <;> split <;>
    first
    | exact ⟨rfl, rfl⟩
    | (rename_i items _
       exact ⟨(header_foldl_destroyItem items _).1.trans rfl,
         (header_foldl_destroyItem items _).2.trans rfl⟩)

theorem header_renderDisconnected (self : VPNStatusIndicator) :
    self.renderDisconnected.indicatorVisible = self.indicatorVisible ∧
      self.renderDisconnected.itemLabel = self.itemLabel := by
  unfold VPNStatusIndicator.renderDisconnected
  cases hca : self._connectAction <;> simp only [] <;> split <;>
    first
    | exact ⟨rfl, rfl⟩
    | exact ⟨(header_foldl_pushGroupAction _ _).1.trans rfl,
        (header_foldl_pushGroupAction _ _).2.trans rfl⟩

/-- The four texts that `_update` sets. -/
theorem update_texts (self : VPNStatusIndicator) (vpnStatus : VPNStatus) :
    (self._update vpnStatus).indicatorVisible = vpnStatus.connected ∧
      (self._update vpnStatus).itemLabel = "NordVPN ".toList ++ vpnStatus.status ∧
      (self._update vpnStatus).connectionGroup = vpnStatus.group ∧
      (self._update vpnStatus).connectionDetails = vpnStatus.fullStatus := by
  refine ⟨?_, ?_, rfl, rfl⟩
  · unfold VPNStatusIndicator._update
    simp only []
    split
    · exact (header_renderConnected _).1
    · exact (header_renderDisconnected _).1
  · unfold VPNStatusIndicator._update
    simp only []
    split
    · exact (header_renderConnected _).2
    · exact (header_renderDisconnected _).2

/-- C17. A user-initiated `_connect(g)` or `_disconnect()` does not render
again: in every controller state and for every `g` it leaves the indicator
visibility, the primary label, the group and detail texts and the action items
with their handles as they were, and also the known groups; it changes the
timer, the backoff value, the group the handler remembers and the list of
commands spawned. The display follows the status only at the next
`_refresh`, which sets the four texts from the status it reads. -/
theorem connect_disconnect_leave_display (self : VPNStatusIndicator) (g : Option Str) :
    ((self._connect g).display = self.display ∧
      (self._connect g).vpnHandler.groups = self.vpnHandler.groups ∧
      (self._connect g).vpnHandler.group = g.getD [] ∧
      (self._connect g).spawned = self.spawned ++ ["nordvpn c ".toList ++ g.getD []] ∧
      (self._connect g)._timerStep = 2) ∧
    (self._disconnect.display = self.display ∧
      self._disconnect.vpnHandler.groups = self.vpnHandler.groups ∧
      self._disconnect.vpnHandler.group = [] ∧
      self._disconnect.spawned = self.spawned ++ ["nordvpn d".toList] ∧
      self._disconnect._timerStep = 2) ∧
    (∀ data, ∃ st next, (self._connect g).vpnHandler.getStatus data = Except.ok st ∧
      (self._connect g)._refresh data = Except.ok next ∧
      next.indicatorVisible = st.connected ∧
      next.itemLabel = "NordVPN ".toList ++ st.status ∧
      next.connectionGroup = st.group ∧ next.connectionDetails = st.fullStatus) := by
  obtain ⟨hd, hh, hs, -, -, -⟩ := stopTimer_frame self
  refine ⟨⟨?_, ?_, ?_, ?_, rfl⟩, ⟨?_, ?_, ?_, ?_, rfl⟩, ?_⟩
  · exact Eq.trans rfl hd
  · show self.stopTimer.vpnHandler.groups = _
    rw [hh]
  · rfl
  · show self.stopTimer.spawned ++ _ = _
    rw [hs]
    rfl
  · exact Eq.trans rfl hd
  · show self.stopTimer.vpnHandler.groups = _
    rw [hh]
  · rfl
  · show self.stopTimer.spawned ++ _ = _
    rw [hs]
  · intro data
    obtain ⟨st, hst, hr⟩ := refresh_eq (self._connect g) data
    obtain ⟨h1, h2, h3, h4⟩ := update_texts (self._connect g).stopTimer st
    exact ⟨st, _, hst, hr, Eq.trans rfl h1, Eq.trans rfl h2, Eq.trans rfl h3, Eq.trans rfl h4⟩

/-! ## The group and the detail text of a status -/

theorem groupField_of_static (self : NordVPN) (g : Group) (hg : g ∈ customGroups)
    (h : self.group = g.name) : groupField self = g.name := by
  have key : ∀ g ∈ customGroups,
      (match customGroups.find? (fun group => decide (group.name = g.name)) with
        | some group => group.name
        | none => "Standard".toList) = g.name := by decide
  unfold groupField
  rw [h]
  exact key g hg

theorem groupField_of_unknown (self : NordVPN) (h : ∀ g ∈ customGroups, g.name ≠ self.group) :
    groupField self = "Standard".toList := by
  unfold groupField
  have : customGroups.find? (fun group => decide (group.name = self.group)) = none := by
    apply find?_eq_none_of_all_false
    intro g hg
    simp [h g hg]
  rw [this]

theorem groupField_mem (self : NordVPN) :
    groupField self = "Standard".toList ∨ groupField self ∈ customGroups.map Group.name := by
  unfold groupField
  cases h : customGroups.find? (fun group => decide (group.name = self.group)) with
  | none => exact Or.inl rfl
  | some g => exact Or.inr (List.mem_map_of_mem _ (List.mem_of_find?_eq_some h))

/-- The group field of the status that `getStatus` returns. -/
theorem getStatus_group (self : NordVPN) (data : Str) :
    ∃ st, self.getStatus data = Except.ok st ∧
      (st.connected = true → st.group = groupField self) ∧
      (st.connected = false → st.group = "Standard".toList) ∧
      st.fullStatus = trim data := by
  refine ⟨_, getStatus_eq self data, ?_⟩
  by_cases hc : toUpperCase (statusWord data) = NordVPN.CONNECTED
  · rw [if_pos hc]
    exact ⟨fun _ => rfl, fun h => Bool.noConfusion h, rfl⟩
  · rw [if_neg hc]
    exact ⟨fun h => Bool.noConfusion h, fun _ => rfl, rfl⟩

/-- C14, as stated, fails after `connect("Double_VPN")`: on the connected
status text "Status: Connected" the group field is the name "Double_VPN" of
the static group, not its label "Double VPN". -/
theorem group_after_connect_double_vpn_is_not_label :
    ∃ st, (NordVPN.new.connect (some "Double_VPN".toList)).1.getStatus
        "Status: Connected".toList = Except.ok st ∧
      st.connected = true ∧ st.group = "Double_VPN".toList ∧
      st.group ≠ "Double VPN".toList ∧
      ({ name := "Double_VPN".toList, label := "Double VPN".toList } : Group) ∈ customGroups := by
  refine ⟨_, getStatus_eq _ _, ?_⟩
  have hc : toUpperCase (statusWord "Status: Connected".toList) = NordVPN.CONNECTED := by decide
  rw [if_pos hc]
  have hn : groupField (NordVPN.new.connect (some "Double_VPN".toList)).1 =
      "Double_VPN".toList := by decide
  refine ⟨rfl, hn, ?_, by decide⟩
  show groupField (NordVPN.new.connect (some "Double_VPN".toList)).1 ≠ _
  rw [hn]
  decide

/-- C14, amended. The group field of a connected status is the name of the
active server group: for every static group and every handler state, after
`connect(name)` a connected status text makes `getStatus` return
`group = name` ("Double_VPN" after `connect("Double_VPN")`); it is "Standard"
when the group the handler remembers is the name of no static group. -/
theorem group_is_name_of_active_group (self : NordVPN) (data : Str) :
    (∀ g ∈ customGroups, ∃ st, (self.connect (some g.name)).1.getStatus data = Except.ok st ∧
      (st.connected = true → st.group = g.name)) ∧
    ((∀ g ∈ customGroups, g.name ≠ self.group) →
      ∃ st, self.getStatus data = Except.ok st ∧ st.group = "Standard".toList) := by
  constructor
  · intro g hg
    obtain ⟨st, hst, hc, -, -⟩ := getStatus_group (self.connect (some g.name)).1 data
    refine ⟨st, hst, fun h => ?_⟩
    rw [hc h]
    exact groupField_of_static _ g hg rfl
  · intro hno
    obtain ⟨st, hst, hc, hd, -⟩ := getStatus_group self data
    refine ⟨st, hst, ?_⟩
    cases hconn : st.connected with
    | true => rw [hc hconn]; exact groupField_of_unknown self hno
    | false => exact hd hconn

/-- C15, as stated, fails on an output that ends with a line feed: for
"Status: Disconnected\n", and for the connected "Status: Connected\n", the
`fullStatus` that `getStatus` returns lacks the final line feed, so it is not
the output unmodified. -/
theorem fullStatus_is_not_verbatim :
    (∃ st, NordVPN.new.getStatus "Status: Disconnected\n".toList = Except.ok st ∧
      st.connected = false ∧ st.fullStatus = "Status: Disconnected".toList ∧
      st.fullStatus ≠ "Status: Disconnected\n".toList) ∧
    (∃ st, NordVPN.new.getStatus "Status: Connected\n".toList = Except.ok st ∧
      st.connected = true ∧ st.fullStatus = "Status: Connected".toList ∧
      st.fullStatus ≠ "Status: Connected\n".toList) := by
  constructor
  · exact ⟨_, rfl, by decide, by decide, by decide⟩
  · exact ⟨_, rfl, by decide, by decide, by decide⟩

/-- C15, amended. The full-detail text is the output of the status command
with the white space around it trimmed: for every output `s`, in the
connected and in the disconnected branch, `getStatus` returns
`fullStatus = trim s`, which is `s` itself when `s` has no white space at
either end; `_update` shows exactly this `fullStatus` in the connection-details
field, and so does every `_refresh`. -/
theorem fullStatus_is_trimmed_output (self : NordVPN) (s : Str) :
    ∃ st, self.getStatus s = Except.ok st ∧ st.fullStatus = trim s ∧
      (isTrimmed s = true → st.fullStatus = s) ∧
      (∀ ind : VPNStatusIndicator, (ind._update st).connectionDetails = st.fullStatus) ∧
      (∀ ind : VPNStatusIndicator, ∃ next, ind._refresh s = Except.ok next ∧
        next.connectionDetails = trim s) := by
  obtain ⟨st, hst, -, -, hfull⟩ := getStatus_group self s
  refine ⟨st, hst, hfull, ?_, fun ind => rfl, ?_⟩
  · intro ht
    rw [hfull]
    unfold trim
    rw [trimStart_of_isTrimmed s ht, trimEnd_of_isTrimmed s ht]
  · intro ind
    obtain ⟨st2, hst2, hr⟩ := refresh_eq ind s
    obtain ⟨st3, hst3, -, -, hfull3⟩ := getStatus_group ind.vpnHandler s
    rw [hst2] at hst3
    cases hst3
    exact ⟨_, hr, Eq.trans rfl hfull3⟩

/-- C18. For every sequence of `connect(g)` and `disconnect()` calls on a new
handler and every status text, `getStatus` returns, and its group field is
"Standard" or the name of one of the four static groups. When the status is
connected, the group is a static name `g` exactly when the most recent call
was `connect(g)`; it is "Standard" after a `disconnect()`, after a `connect()`
without argument, after a `connect` with a name that is no static name, and
when no call was made. A status that is not connected has the group
"Standard". -/
theorem group_follows_last_call (cs : List Call) (data : Str) :
    ∃ st, (NordVPN.new.calls cs).getStatus data = Except.ok st ∧
      (st.group = "Standard".toList ∨ st.group ∈ customGroups.map Group.name) ∧
      (st.connected = true →
        (∀ g ∈ customGroups.map Group.name,
          (st.group = g ↔ cs.getLast? = some (Call.connect (some g)))) ∧
        (cs.getLast? = none → st.group = "Standard".toList) ∧
        (cs.getLast? = some Call.disconnect → st.group = "Standard".toList) ∧
        (cs.getLast? = some (Call.connect none) → st.group = "Standard".toList) ∧
        (∀ g, cs.getLast? = some (Call.connect (some g)) →
          g ∉ customGroups.map Group.name → st.group = "Standard".toList)) ∧
      (st.connected = false → st.group = "Standard".toList) := by
  obtain ⟨st, hst, hc, hd, -⟩ := getStatus_group (NordVPN.new.calls cs) data
  have hmem := groupField_mem (NordVPN.new.calls cs)
  have hstd : "Standard".toList ∉ customGroups.map Group.name := by decide
  have hempty : ([] : Str) ∉ customGroups.map Group.name := by decide
  -- the group the handler remembers after the calls
  have hlast : (NordVPN.new.calls cs).group =
      (match cs.getLast? with
        | some (Call.connect group) => group.getD []
        | some Call.disconnect => []
        | none => []) := by
    rcases List.eq_nil_or_concat cs with rfl | ⟨cs0, c, rfl⟩
    · rfl
    · rw [List.concat_eq_append]
      have hl : (cs0 ++ [c]).getLast? = some c := by simp
      rw [hl]
      unfold NordVPN.calls
      rw [List.foldl_append]
      cases c with
      | connect group => rfl
      | disconnect => rfl
  -- the group field in terms of the remembered group
  have hfield_static : ∀ g ∈ customGroups.map Group.name,
      (groupField (NordVPN.new.calls cs) = g ↔ (NordVPN.new.calls cs).group = g) := by
    intro g hg
    obtain ⟨grp, hgrp, rfl⟩ := List.mem_map.mp hg
    constructor
    · intro h
      by_cases hk : ∃ k ∈ customGroups, k.name = (NordVPN.new.calls cs).group
      · obtain ⟨k, hk1, hk2⟩ := hk
        rw [groupField_of_static _ k hk1 hk2.symm] at h
        rw [← hk2, h]
      · exfalso
        have hu := groupField_of_unknown (NordVPN.new.calls cs)
          (fun k hk1 hk2 => hk ⟨k, hk1, hk2⟩)
        rw [hu] at h
        exact hstd (h ▸ hg)
    · intro h
      exact groupField_of_static _ grp hgrp h
  have hfield_unknown : (NordVPN.new.calls cs).group ∉ customGroups.map Group.name →
      groupField (NordVPN.new.calls cs) = "Standard".toList := by
    intro h
    apply groupField_of_unknown
    intro k hk1 hk2
    exact h (hk2 ▸ List.mem_map_of_mem _ hk1)
  refine ⟨st, hst, ?_, ?_, hd⟩
  · cases hconn : st.connected with
    | true => rw [hc hconn]; exact hmem
    | false => exact Or.inl (hd hconn)
  · intro hconn
    rw [hc hconn]
    refine ⟨?_, ?_, ?_, ?_, ?_⟩
    · intro g hg
      rw [hfield_static g hg, hlast]
      cases hl : cs.getLast? with
      | none =>
        simp only [reduceCtorEq, iff_false]
        intro h
        exact hempty (h ▸ hg)
      | some c =>
        cases c with
        | disconnect =>
          simp only [reduceCtorEq, Option.some.injEq, iff_false]
          intro h
          exact hempty (h ▸ hg)
        | connect group =>
          cases group with
          | none =>
            simp only [Option.getD_none, Option.some.injEq, Call.connect.injEq, reduceCtorEq,
              iff_false]
            intro h
            exact hempty (h ▸ hg)
          | some x =>
            simp only [Option.getD_some, Option.some.injEq, Call.connect.injEq]
    · intro hl
      apply hfield_unknown
      rw [hlast, hl]
      exact hempty
    · intro hl
      apply hfield_unknown
      rw [hlast, hl]
      exact hempty
    · intro hl
      apply hfield_unknown
      rw [hlast, hl]
      exact hempty
    · intro g hl hg
      apply hfield_unknown
      rw [hlast, hl]
      exact hg

/-! ## Timers and backoff along the runs of the extension -/

theorem timerPart_stopTimer_of_inv (s : VPNStatusIndicator) (h : TimerInv s) :
    s.stopTimer.timerPart = (s._timerStep, none, [], s.lastSource) := by
  rcases h with ⟨h1, h2⟩ | ⟨i, interval, hi, -, h1, h2⟩
  · unfold VPNStatusIndicator.stopTimer
    rw [h1]
    simp [VPNStatusIndicator.timerPart, h1, h2]
  · unfold VPNStatusIndicator.stopTimer
    rw [h1]
    simp only [hi, ne_eq, not_false_eq_true, if_true]
    simp [VPNStatusIndicator.timerPart, VPNStatusIndicator.source_remove, h2]

theorem timerPart_startTimer_idle (t : VPNStatusIndicator) (step last : Nat)
    (h : t.timerPart = (step, none, [], last)) :
    t.startTimer.timerPart =
      (if step * 2 > 30 then 30 else step * 2, some (last + 1),
        [Source.mk (last + 1) step], last + 1) := by
  rw [timerPart_startTimer]
  simp only [VPNStatusIndicator.timerPart, Prod.mk.injEq] at h
  obtain ⟨h1, -, h3, h4⟩ := h
  rw [h1, h3, h4]
  simp

theorem next_backoff_mem (step : Nat) (h : step ∈ backoffValues) :
    (if step * 2 > 30 then 30 else step * 2) ∈ backoffValues := by
  simp only [backoffValues, List.mem_cons, List.mem_singleton, List.not_mem_nil, or_false] at h
  rcases h with rfl | rfl | rfl | rfl | rfl | rfl <;> decide

/-- A state whose timer part is that of a timer just armed on an idle main
loop. -/
theorem inv_of_armed (s : VPNStatusIndicator) (step last : Nat) (hstep : step ∈ backoffValues)
    (h : s.timerPart =
      (if step * 2 > 30 then 30 else step * 2, some (last + 1),
        [Source.mk (last + 1) step], last + 1)) :
    TimerInv s ∧ BackoffInv s := by
  simp only [VPNStatusIndicator.timerPart, Prod.mk.injEq] at h
  obtain ⟨h1, h2, h3, h4⟩ := h
  constructor
  · exact Or.inr ⟨last + 1, step, Nat.succ_ne_zero _, by rw [h4], h2, h3⟩
  · refine ⟨by rw [h1]; exact next_backoff_mem step hstep, ?_⟩
    intro src hsrc
    rw [h3] at hsrc
    simp only [List.mem_singleton] at hsrc
    rw [hsrc]
    exact hstep

theorem refresh_timerPart (s : VPNStatusIndicator) (data : Str) (h : TimerInv s) :
    ∃ next, s._refresh data = Except.ok next ∧
      next.timerPart =
        (if s._timerStep * 2 > 30 then 30 else s._timerStep * 2, some (s.lastSource + 1),
          [Source.mk (s.lastSource + 1) s._timerStep], s.lastSource + 1) := by
  obtain ⟨st, -, hr⟩ := refresh_eq s data
  refine ⟨_, hr, ?_⟩
  rw [timerPart_startTimer_congr _ _ (timerPart_update _ st)]
  exact timerPart_startTimer_idle _ _ _ (timerPart_stopTimer_of_inv s h)

theorem connect_timerPart (s : VPNStatusIndicator) (g : Option Str) (h : TimerInv s) :
    (s._connect g).timerPart =
      (2, some (s.lastSource + 1), [Source.mk (s.lastSource + 1) 1], s.lastSource + 1) := by
  have hs := timerPart_stopTimer_of_inv s h
  simp only [VPNStatusIndicator.timerPart, Prod.mk.injEq] at hs
  obtain ⟨-, h2, h3, h4⟩ := hs
  unfold VPNStatusIndicator._connect
  simp only []
  rw [timerPart_startTimer_idle _ 1 s.lastSource]
  · rfl
  · simp [VPNStatusIndicator.timerPart, VPNStatusIndicator.resetTimer, h2, h3, h4]

theorem disconnect_timerPart (s : VPNStatusIndicator) (h : TimerInv s) :
    s._disconnect.timerPart =
      (2, some (s.lastSource + 1), [Source.mk (s.lastSource + 1) 1], s.lastSource + 1) := by
  have hs := timerPart_stopTimer_of_inv s h
  simp only [VPNStatusIndicator.timerPart, Prod.mk.injEq] at hs
  obtain ⟨-, h2, h3, h4⟩ := hs
  unfold VPNStatusIndicator._disconnect
  simp only []
  rw [timerPart_startTimer_idle _ 1 s.lastSource]
  · rfl
  · simp [VPNStatusIndicator.timerPart, VPNStatusIndicator.resetTimer, h2, h3, h4]

/-- Every event keeps the timer bookkeeping sound and the backoff among its
values, and `destroy` leaves no timer pending. -/
theorem step_inv (s : VPNStatusIndicator) (e : Event) (ht : TimerInv s) (hb : BackoffInv s) :
    ∃ next, s.step e = Except.ok next ∧ TimerInv next ∧ BackoffInv next ∧
      (e = Event.destroy → next.mainloop = [] ∧ next._timer = none) := by
  cases e with
  | refresh data =>
    obtain ⟨next, hr, hp⟩ := refresh_timerPart s data ht
    obtain ⟨h1, h2⟩ := inv_of_armed next _ _ hb.1 hp
    exact ⟨next, hr, h1, h2, fun h => Event.noConfusion h⟩
  | connect g =>
    obtain ⟨h1, h2⟩ := inv_of_armed (s._connect g) 1 s.lastSource (by decide)
      (connect_timerPart s g ht)
    exact ⟨_, rfl, h1, h2, fun h => Event.noConfusion h⟩
  | disconnect =>
    obtain ⟨h1, h2⟩ := inv_of_armed s._disconnect 1 s.lastSource (by decide)
      (disconnect_timerPart s ht)
    exact ⟨_, rfl, h1, h2, fun h => Event.noConfusion h⟩
  | destroy =>
    have hs := timerPart_stopTimer_of_inv s ht
    simp only [VPNStatusIndicator.timerPart, Prod.mk.injEq] at hs
    obtain ⟨h1, h2, h3, -⟩ := hs
    refine ⟨s.destroy, rfl, Or.inl ⟨h2, h3⟩, ⟨?_, ?_⟩, fun _ => ⟨h3, h2⟩⟩
    · show s.stopTimer._timerStep ∈ backoffValues
      rw [h1]; exact hb.1
    · intro src hsrc
      have : src ∈ s.stopTimer.mainloop := hsrc
      rw [h3] at this
      cases this
  | timerFired data =>
    rcases ht with ⟨h1, h2⟩ | ⟨i, interval, hi, hle, h1, h2⟩
    · refine ⟨s, ?_, Or.inl ⟨h1, h2⟩, hb, fun h => Event.noConfusion h⟩
      show s.timerFired data = _
      unfold VPNStatusIndicator.timerFired
      rw [h2]
      rfl
    · have ht : TimerInv s := Or.inr ⟨i, interval, hi, hle, h1, h2⟩
      obtain ⟨next, hr, hp⟩ := refresh_timerPart s data ht
      have hp2 : (next.source_remove i).timerPart = next.timerPart := by
        have hp0 := hp
        simp only [VPNStatusIndicator.timerPart, Prod.mk.injEq] at hp0
        obtain ⟨-, -, k3, -⟩ := hp0
        have hne : s.lastSource + 1 ≠ i := by omega
        simp [VPNStatusIndicator.timerPart, VPNStatusIndicator.source_remove, k3, hne]
      obtain ⟨g1, g2⟩ := inv_of_armed (next.source_remove i) _ _ hb.1 (hp2.trans hp)
      refine ⟨next.source_remove i, ?_, g1, g2, fun h => Event.noConfusion h⟩
      show s.timerFired data = _
      unfold VPNStatusIndicator.timerFired
      rw [h2]
      simp only []
      unfold VPNStatusIndicator.dispatch
      rw [h2, hr]
      simp

theorem runFrom_inv (events : List Event) (s : VPNStatusIndicator) (ht : TimerInv s)
    (hb : BackoffInv s) :
    ∃ final, s.runFrom events = Except.ok final ∧ TimerInv final ∧ BackoffInv final ∧
      (events.getLast? = some Event.destroy → final.mainloop = [] ∧ final._timer = none) := by
  induction events generalizing s with
  | nil => exact ⟨s, rfl, ht, hb, fun h => by simp at h⟩
  | cons e es ih =>
    obtain ⟨next, hn, ht', hb', hd⟩ := step_inv s e ht hb
    obtain ⟨final, hf, ht'', hb'', hd'⟩ := ih next ht' hb'
    refine ⟨final, ?_, ht'', hb'', ?_⟩
    · show (s.step e >>= fun next => next.runFrom es) = _
      rw [hn]
      exact hf
    · intro hl
      cases es with
      | nil =>
        simp only [List.getLast?_singleton, Option.some.injEq] at hl
        have hfe : final = next := by
          have : next.runFrom [] = Except.ok next := rfl
          rw [this] at hf
          cases hf
          rfl
        rw [hfe]
        exact hd hl
      | cons e2 es2 =>
        apply hd'
        rw [List.getLast?_cons_cons] at hl
        exact hl

/-- After the module function `enable()` the timer bookkeeping is sound and the
backoff is among its values. -/
theorem enable_inv (groupsData statusData : Str) :
    ∃ s, VPNStatusIndicator.new.enable groupsData statusData = Except.ok s ∧
      TimerInv s ∧ BackoffInv s := by
  have h0 : TimerInv ({ VPNStatusIndicator.new with
      vpnHandler := VPNStatusIndicator.new.vpnHandler.getGroups groupsData }.resetTimer) :=
    Or.inl ⟨rfl, rfl⟩
  obtain ⟨next, hr, hp⟩ := refresh_timerPart _ statusData h0
  obtain ⟨h1, h2⟩ := inv_of_armed next 1 0 (by decide) hp
  exact ⟨next, hr, h1, h2⟩

theorem run_inv (groupsData statusData : Str) (events : List Event) :
    ∃ final, run groupsData statusData events = Except.ok final ∧ TimerInv final ∧
      BackoffInv final ∧
      (events.getLast? = some Event.destroy → final.mainloop = [] ∧ final._timer = none) := by
  obtain ⟨s, hs, ht, hb⟩ := enable_inv groupsData statusData
  obtain ⟨final, hf, h1, h2, h3⟩ := runFrom_inv events s ht hb
  refine ⟨final, ?_, h1, h2, h3⟩
  unfold run
  rw [hs]
  exact hf

theorem mainloop_stopTimer_of_inv (s : VPNStatusIndicator) (h : TimerInv s) :
    s.stopTimer.mainloop = [] ∧ s.stopTimer._timer = none := by
  have hs := timerPart_stopTimer_of_inv s h
  simp only [VPNStatusIndicator.timerPart, Prod.mk.injEq] at hs
  exact ⟨hs.2.2.1, hs.2.1⟩

/-- C13. At most one poll timer is outstanding in every reachable state: after
the module function `enable()` and every sequence of timer firings, calls of
`_refresh`, `_connect`, `_disconnect` and `destroy`, the run returns, the
number of pending timers is at most 1, and a pending timer is the one that
`_timer` names. In each such state `stopTimer` cancels every pending timer, so
that the `startTimer` which follows it in `_refresh`, `_connect` and
`_disconnect` arms the only one (each of these leaves exactly one timer
pending), and after `destroy` no timer is pending. -/
theorem at_most_one_timer_outstanding (groupsData statusData : Str) (events : List Event) :
    ∃ s, run groupsData statusData events = Except.ok s ∧
      s.mainloop.length ≤ 1 ∧
      (∀ src ∈ s.mainloop, s._timer = some src.id) ∧
      s.stopTimer.mainloop = [] ∧
      (∀ g, (s._connect g).mainloop.length = 1) ∧
      s._disconnect.mainloop.length = 1 ∧
      (∀ data, ∃ next, s._refresh data = Except.ok next ∧ next.mainloop.length = 1) ∧
      (∀ data, ∃ next, s.timerFired data = Except.ok next ∧ next.mainloop.length ≤ 1) ∧
      s.destroy.mainloop = [] ∧
      (events.getLast? = some Event.destroy → s.mainloop = []) := by
  obtain ⟨s, hs, ht, hb, hd⟩ := run_inv groupsData statusData events
  have hlen : ∀ t, TimerInv t → t.mainloop.length ≤ 1 := by
    intro t h
    rcases h with ⟨-, h2⟩ | ⟨i, interval, -, -, -, h2⟩ <;> rw [h2] <;> simp
  refine ⟨s, hs, hlen s ht, ?_, (mainloop_stopTimer_of_inv s ht).1, ?_, ?_, ?_, ?_,
    (mainloop_stopTimer_of_inv s ht).1, fun h => (hd h).1⟩
  · intro src hsrc
    rcases ht with ⟨-, h2⟩ | ⟨i, interval, -, -, h1, h2⟩
    · rw [h2] at hsrc; cases hsrc
    · rw [h2] at hsrc
      simp only [List.mem_singleton] at hsrc
      rw [h1, hsrc]
  · intro g
    have h := connect_timerPart s g ht
    simp only [VPNStatusIndicator.timerPart, Prod.mk.injEq] at h
    rw [h.2.2.1]
    rfl
  · have h := disconnect_timerPart s ht
    simp only [VPNStatusIndicator.timerPart, Prod.mk.injEq] at h
    rw [h.2.2.1]
    rfl
  · intro data
    obtain ⟨next, hr, hp⟩ := refresh_timerPart s data ht
    simp only [VPNStatusIndicator.timerPart, Prod.mk.injEq] at hp
    refine ⟨next, hr, ?_⟩
    rw [hp.2.2.1]
    rfl
  · intro data
    obtain ⟨next, hn, ht', -, -⟩ := step_inv s (Event.timerFired data) ht hb
    exact ⟨next, hn, hlen next ht'⟩

/-- C16. The backoff value is bounded in every reachable state: after the
module function `enable()` and every sequence of timer firings, calls of
`_refresh`, `_connect`, `_disconnect` and `destroy`, the run returns, and the
stored `_timerStep` as well as the interval of every timer that is armed lie
in {1, 2, 4, 8, 16, 30}; none is below 1 or above 30. This holds as well for
the timer each further `_connect`, `_disconnect` and `_refresh` arms. -/
theorem backoff_value_bounded (groupsData statusData : Str) (events : List Event) :
    ∃ s, run groupsData statusData events = Except.ok s ∧
      s._timerStep ∈ [1, 2, 4, 8, 16, 30] ∧
      (∀ src ∈ s.mainloop, src.interval ∈ [1, 2, 4, 8, 16, 30]) ∧
      (1 ≤ s._timerStep ∧ s._timerStep ≤ 30) ∧
      (∀ src ∈ s.mainloop, 1 ≤ src.interval ∧ src.interval ≤ 30) ∧
      (∀ g, (s._connect g).armedInterval = some 1) ∧
      s._disconnect.armedInterval = some 1 ∧
      (∀ data, ∃ next delay, s._refresh data = Except.ok next ∧
        next.armedInterval = some delay ∧ delay ∈ [1, 2, 4, 8, 16, 30]) := by
  obtain ⟨s, hs, ht, hb, -⟩ := run_inv groupsData statusData events
  have hrange : ∀ n, n ∈ backoffValues → 1 ≤ n ∧ n ≤ 30 := by decide
  refine ⟨s, hs, hb.1, hb.2, hrange _ hb.1, fun src h => hrange _ (hb.2 src h), ?_, ?_, ?_⟩
  · intro g
    exact armedInterval_of_timerPart _ _ _ _ (connect_timerPart s g ht)
  · exact armedInterval_of_timerPart _ _ _ _ (disconnect_timerPart s ht)
  · intro data
    obtain ⟨next, hr, hp⟩ := refresh_timerPart s data ht
    exact ⟨next, s._timerStep, hr, armedInterval_of_timerPart _ _ _ _ hp, hb.1⟩

/-! ## The menu after a render -/

theorem id_le_maxItem (items : List MenuItem) (item : MenuItem) (h : item ∈ items) :
    item.id ≤ maxItem items := by
  unfold maxItem
  induction items with
  | nil => cases h
  | cons a l ih =>
    simp only [List.map_cons, List.foldr_cons]
    rcases List.mem_cons.mp h with rfl | h
    · exact le_max_left _ _
    · exact le_trans (ih h) (le_max_right _ _)

theorem maxItem_append (l1 l2 : List MenuItem) :
    maxItem (l1 ++ l2) = max (maxItem l1) (maxItem l2) := by
  unfold maxItem
  induction l1 with
  | nil => simp
  | cons a l ih =>
    simp only [List.cons_append, List.map_cons, List.foldr_cons, ih]
    exact (max_assoc _ _ _).symm

theorem foldl_destroyItem_spec (ids : List Nat) (s : VPNStatusIndicator) :
    (ids.foldl VPNStatusIndicator.destroyItem s).actions =
        s.actions.filter (fun item => decide (item.id ∉ ids)) ∧
      (ids.foldl VPNStatusIndicator.destroyItem s)._disconnectAction = s._disconnectAction ∧
      (ids.foldl VPNStatusIndicator.destroyItem s)._connectAction = s._connectAction ∧
      (ids.foldl VPNStatusIndicator.destroyItem s).vpnHandler = s.vpnHandler := by
  induction ids generalizing s with
  | nil => simp
  | cons i is ih =>
    obtain ⟨h1, h2, h3, h4⟩ := ih (s.destroyItem i)
    simp only [List.foldl_cons]
    refine ⟨?_, h2.trans rfl, h3.trans rfl, h4.trans rfl⟩
    rw [h1]
    show (s.actions.filter _).filter _ = _
    rw [List.filter_filter]
    congr 1
    funext item
    simp only [List.mem_cons, not_or, ne_eq, Bool.decide_and, decide_not]
    rw [Bool.and_comm]

theorem foldl_pushGroupAction_spec (gs : List Group) (s : VPNStatusIndicator) (ids0 : List Nat)
    (h : s._connectAction = some ids0) :
    ∃ newItems : List MenuItem,
      (gs.foldl VPNStatusIndicator.pushGroupAction s).actions = s.actions ++ newItems ∧
      (gs.foldl VPNStatusIndicator.pushGroupAction s)._connectAction =
        some (ids0 ++ newItems.map MenuItem.id) ∧
      newItems.map (fun item => (item.label, item.callback)) =
        gs.map (fun group =>
          ("Connect to ".toList ++ group.label, Callback.connectTo group.name)) ∧
      (∀ item ∈ newItems, maxItem s.actions < item.id) ∧
      (gs.foldl VPNStatusIndicator.pushGroupAction s)._disconnectAction = s._disconnectAction ∧
      (gs.foldl VPNStatusIndicator.pushGroupAction s).vpnHandler = s.vpnHandler := by
  induction gs generalizing s ids0 with
  | nil => exact ⟨[], by simp, by simp [h], rfl, by simp, rfl, rfl⟩
  | cons g gs ih =>
    have h1 : (s.pushGroupAction g)._connectAction =
        some (ids0 ++ [VPNStatusIndicator.freshItem s.actions]) := by
      show some ((s._connectAction.getD []) ++ _) = _
      rw [h]
      rfl
    obtain ⟨rest, r1, r2, r3, r4, r5, r6⟩ := ih (s.pushGroupAction g) _ h1
    have ha : (s.pushGroupAction g).actions =
        s.actions ++ [{ id := VPNStatusIndicator.freshItem s.actions,
                        label := "Connect to ".toList ++ g.label,
                        callback := Callback.connectTo g.name }] := rfl
    refine ⟨{ id := VPNStatusIndicator.freshItem s.actions,
              label := "Connect to ".toList ++ g.label,
              callback := Callback.connectTo g.name } :: rest, ?_, ?_, ?_, ?_, ?_, ?_⟩
    · simp only [List.foldl_cons]
      rw [r1, ha]
      simp
    · simp only [List.foldl_cons]
      rw [r2]
      simp
    · simp only [List.map_cons, r3]
    · intro item hitem
      rcases List.mem_cons.mp hitem with rfl | hitem
      · show maxItem s.actions < maxItem s.actions + 1
        omega
      · have := r4 item hitem
        rw [ha, maxItem_append] at this
        exact lt_of_le_of_lt (le_max_left _ _) this
    · simp only [List.foldl_cons]
      exact r5.trans rfl
    · simp only [List.foldl_cons]
      exact r6.trans rfl

theorem shows_congr (a b : VPNStatusIndicator) (h : a.menuPart = b.menuPart) :
    (ShowsNothing a ↔ ShowsNothing b) ∧ (ShowsDisconnect a ↔ ShowsDisconnect b) ∧
      (ShowsConnect a ↔ ShowsConnect b) ∧ (MenuInv a ↔ MenuInv b) := by
  simp only [VPNStatusIndicator.menuPart, Prod.mk.injEq] at h
  obtain ⟨h1, h2, h3, h4⟩ := h
  have e1 : ShowsNothing a ↔ ShowsNothing b := by
    unfold ShowsNothing; rw [h1, h2, h3]
  have e2 : ShowsDisconnect a ↔ ShowsDisconnect b := by
    unfold ShowsDisconnect; rw [h1, h2, h3]
  have e3 : ShowsConnect a ↔ ShowsConnect b := by
    unfold ShowsConnect VPNStatusIndicator.menuEntries; rw [h1, h2, h3, h4]
  refine ⟨e1, e2, e3, ?_⟩
  unfold MenuInv
  rw [e1, e2, e3, h4]

/-- The state after the "Disconnect" action was added. -/
theorem renderConnected_of_none_none (s : VPNStatusIndicator)
    (h1 : s._disconnectAction = none) (h2 : s._connectAction = none) :
    s.renderConnected =
      { s with
        actions := s.actions ++
          [{ id := VPNStatusIndicator.freshItem s.actions, label := "Disconnect".toList,
             callback := Callback.disconnect }],
        _disconnectAction := some (VPNStatusIndicator.freshItem s.actions) } := by
  cases s
  simp only at h1 h2
  subst h1 h2
  rfl

theorem renderConnected_of_some_none (s : VPNStatusIndicator) (d : Nat)
    (h1 : s._disconnectAction = some d) (h2 : s._connectAction = none) :
    s.renderConnected = s := by
  cases s
  simp only at h1 h2
  subst h1 h2
  rfl

theorem renderConnected_of_none_some (s : VPNStatusIndicator) (ids : List Nat)
    (h1 : s._disconnectAction = none) (h2 : s._connectAction = some ids) :
    s.renderConnected =
      { ids.foldl VPNStatusIndicator.destroyItem
          { s with
            actions := s.actions ++
              [{ id := VPNStatusIndicator.freshItem s.actions, label := "Disconnect".toList,
                 callback := Callback.disconnect }],
            _disconnectAction := some (VPNStatusIndicator.freshItem s.actions) } with
        _connectAction := none } := by
  cases s
  simp only at h1 h2
  subst h1 h2
  rfl

theorem freshItem_not_mem (items : List MenuItem) :
    VPNStatusIndicator.freshItem items ∉ items.map MenuItem.id := by
  intro hm
  obtain ⟨item, hitem, hid⟩ := List.mem_map.mp hm
  have := id_le_maxItem items item hitem
  unfold VPNStatusIndicator.freshItem at hid
  unfold maxItem at this
  omega

theorem renderConnected_shows (s : VPNStatusIndicator)
    (h : ShowsNothing s ∨ ShowsDisconnect s ∨ ShowsConnect s) :
    ShowsDisconnect s.renderConnected ∧ s.renderConnected.vpnHandler = s.vpnHandler := by
  rcases h with ⟨h1, h2, h3⟩ | ⟨d, h1, h2, h3⟩ | ⟨h1, h2, h3⟩
  · rw [renderConnected_of_none_none s h1 h2]
    refine ⟨⟨_, rfl, h2, ?_⟩, rfl⟩
    show s.actions ++ _ = _
    rw [h3]
    rfl
  · rw [renderConnected_of_some_none s d h1 h2]
    exact ⟨⟨d, h1, h2, h3⟩, rfl⟩
  · rw [renderConnected_of_none_some s _ h1 h2]
    obtain ⟨f1, f2, f3, f4⟩ := foldl_destroyItem_spec (s.actions.map MenuItem.id)
      { s with
        actions := s.actions ++
          [{ id := VPNStatusIndicator.freshItem s.actions, label := "Disconnect".toList,
             callback := Callback.disconnect }],
        _disconnectAction := some (VPNStatusIndicator.freshItem s.actions) }
    refine ⟨⟨VPNStatusIndicator.freshItem s.actions, f2.trans rfl, rfl, ?_⟩, f4.trans rfl⟩
    show (List.foldl VPNStatusIndicator.destroyItem _ _).actions = _
    rw [f1]
    show (s.actions ++ _).filter _ = _
    rw [List.filter_append]
    have hold : s.actions.filter (fun item => decide (item.id ∉ s.actions.map MenuItem.id)) =
        [] := by
      rw [List.filter_eq_nil_iff]
      intro item hitem
      simp only [decide_eq_true_eq, not_not]
      exact List.mem_map_of_mem _ hitem
    rw [hold]
    have hnew := freshItem_not_mem s.actions
    have hkeep : decide (VPNStatusIndicator.freshItem s.actions ∉ s.actions.map MenuItem.id) =
        true := by simpa using hnew
    simp only [List.nil_append, List.filter_cons, hkeep, if_true, List.filter_nil]

theorem renderDisconnected_of_some_none (s : VPNStatusIndicator) (ids : List Nat)
    (h1 : s._connectAction = some ids) (h2 : s._disconnectAction = none) :
    s.renderDisconnected = s := by
  cases s
  simp only at h1 h2
  subst h1 h2
  rfl

theorem renderDisconnected_of_none (s : VPNStatusIndicator) (h1 : s._connectAction = none) :
    s.renderDisconnected =
      (match s.withConnectActions._disconnectAction with
        | some d => { s.withConnectActions.destroyItem d with _disconnectAction := none }
        | none => s.withConnectActions) := by
  cases s
  simp only at h1
  subst h1
  rfl

theorem withConnectActions_spec (s : VPNStatusIndicator) :
    ∃ newItems : List MenuItem,
      s.withConnectActions.actions =
        s.actions ++
          MenuItem.mk (VPNStatusIndicator.freshItem s.actions) "Connect".toList
            Callback.connect :: newItems ∧
      s.withConnectActions._connectAction =
        some (VPNStatusIndicator.freshItem s.actions :: newItems.map MenuItem.id) ∧
      newItems.map (fun item => (item.label, item.callback)) =
        s.vpnHandler.groups.map (fun group =>
          ("Connect to ".toList ++ group.label, Callback.connectTo group.name)) ∧
      (∀ item ∈ newItems, VPNStatusIndicator.freshItem s.actions < item.id) ∧
      s.withConnectActions._disconnectAction = s._disconnectAction ∧
      s.withConnectActions.vpnHandler = s.vpnHandler := by
  obtain ⟨newItems, r1, r2, r3, r4, r5, r6⟩ :=
    foldl_pushGroupAction_spec s.vpnHandler.groups
      { s with
        actions := s.actions ++
          [{ id := VPNStatusIndicator.freshItem s.actions, label := "Connect".toList,
             callback := Callback.connect }],
        _connectAction := some [VPNStatusIndicator.freshItem s.actions] }
      [VPNStatusIndicator.freshItem s.actions] rfl
  refine ⟨newItems, ?_, ?_, r3, ?_, r5, r6⟩
  · unfold VPNStatusIndicator.withConnectActions
    rw [r1]
    show s.actions ++ _ ++ newItems = _
    simp
  · unfold VPNStatusIndicator.withConnectActions
    rw [r2]
    rfl
  · intro item hitem
    have h := r4 item hitem
    have hm : maxItem (s.actions ++
        [{ id := VPNStatusIndicator.freshItem s.actions, label := "Connect".toList,
           callback := Callback.connect }]) < item.id := h
    rw [maxItem_append] at hm
    have h2 : maxItem [MenuItem.mk (VPNStatusIndicator.freshItem s.actions)
        "Connect".toList Callback.connect] =
        VPNStatusIndicator.freshItem s.actions := by
      simp [maxItem]
    rw [h2] at hm
    exact lt_of_le_of_lt (le_max_right _ _) hm

theorem renderDisconnected_shows (s : VPNStatusIndicator)
    (h : ShowsNothing s ∨ ShowsDisconnect s ∨ ShowsConnect s) :
    ShowsConnect s.renderDisconnected ∧ s.renderDisconnected.vpnHandler = s.vpnHandler := by
  obtain ⟨newItems, r1, r2, r3, r4, r5, r6⟩ := withConnectActions_spec s
  rcases h with ⟨h1, h2, h3⟩ | ⟨d, h1, h2, h3⟩ | ⟨h1, h2, h3⟩
  · rw [renderDisconnected_of_none s h2, r5, h1]
    simp only []
    refine ⟨⟨r5.trans h1, ?_, ?_⟩, r6⟩
    · rw [r2, r1, h3]
      rfl
    · unfold VPNStatusIndicator.menuEntries
      rw [r1, r6, h3]
      simp only [List.nil_append, List.map_cons, r3]
      rfl
  · rw [renderDisconnected_of_none s h2, r5, h1]
    simp only []
    have hfresh : VPNStatusIndicator.freshItem s.actions = d + 1 := by
      rw [h3]
      simp [VPNStatusIndicator.freshItem]
    have hact : (s.withConnectActions.destroyItem d).actions =
        MenuItem.mk (d + 1) "Connect".toList Callback.connect :: newItems := by
      show s.withConnectActions.actions.filter _ = _
      rw [r1, hfresh, h3]
      have hnew : newItems.filter (fun item => decide (item.id ≠ d)) = newItems := by
        rw [List.filter_eq_self]
        intro item hitem
        have := r4 item hitem
        rw [hfresh] at this
        simp only [ne_eq, decide_not, Bool.not_eq_eq_eq_not, Bool.not_true,
          decide_eq_false_iff_not]
        omega
      simp only [List.cons_append, List.nil_append, List.filter_cons, ne_eq, not_true_eq_false,
        decide_False, Bool.false_eq_true, if_false, hnew]
      simp
    refine ⟨⟨rfl, ?_, ?_⟩, r6⟩
    · show s.withConnectActions._connectAction =
        some (List.map MenuItem.id (s.withConnectActions.destroyItem d).actions)
      rw [hact, r2, hfresh]
      rfl
    · unfold VPNStatusIndicator.menuEntries
      show List.map _ (s.withConnectActions.destroyItem d).actions =
        connectEntries s.withConnectActions.vpnHandler.groups
      rw [hact, r6]
      simp only [List.map_cons, r3]
      rfl
  · rw [renderDisconnected_of_some_none s _ h2 h1]
    exact ⟨⟨h1, h2, h3⟩, rfl⟩

theorem update_eq (s : VPNStatusIndicator) (st : VPNStatus) :
    (st.connected = true →
      (s._update st).menuPart =
        ({ s with indicatorVisible := st.connected,
                  itemLabel := "NordVPN ".toList ++ st.status }).renderConnected.menuPart) ∧
    (st.connected = false →
      (s._update st).menuPart =
        ({ s with indicatorVisible := st.connected,
                  itemLabel := "NordVPN ".toList ++ st.status }).renderDisconnected.menuPart) := by
  constructor
  · intro hc
    unfold VPNStatusIndicator._update
    simp only [hc, if_true]
    rfl
  · intro hc
    unfold VPNStatusIndicator._update
    simp only [hc, Bool.false_eq_true, if_false]
    rfl

/-- A render keeps the menu in one of its modes, in the mode of the status
rendered, and keeps the known groups. -/
theorem update_shows (s : VPNStatusIndicator) (st : VPNStatus) (h : MenuInv s) :
    MenuInv (s._update st) ∧
      (st.connected = true → ShowsDisconnect (s._update st)) ∧
      (st.connected = false → ShowsConnect (s._update st)) ∧
      (s._update st).vpnHandler.groups = s.vpnHandler.groups := by
  obtain ⟨hsub, hmode⟩ := h
  have hx : ShowsNothing { s with indicatorVisible := st.connected,
                                  itemLabel := "NordVPN ".toList ++ st.status } ∨
      ShowsDisconnect { s with indicatorVisible := st.connected,
                               itemLabel := "NordVPN ".toList ++ st.status } ∨
      ShowsConnect { s with indicatorVisible := st.connected,
                            itemLabel := "NordVPN ".toList ++ st.status } := hmode
  cases hc : st.connected with
  | true =>
    obtain ⟨h1, h2⟩ := renderConnected_shows _ hx
    have hm := (update_eq s st).1 hc
    have hsd : ShowsDisconnect (s._update st) := ((shows_congr _ _ hm).2.1).mpr h1
    have hg : (s._update st).vpnHandler.groups = s.vpnHandler.groups := by
      have := congrArg (fun p => p.2.2.2) hm
      simp only [VPNStatusIndicator.menuPart] at this
      rw [this, h2]
    exact ⟨⟨by rw [hg]; exact hsub, Or.inr (Or.inl hsd)⟩, fun _ => hsd,
      fun h => Bool.noConfusion h, hg⟩
  | false =>
    obtain ⟨h1, h2⟩ := renderDisconnected_shows _ hx
    have hm := (update_eq s st).2 hc
    have hsc : ShowsConnect (s._update st) := ((shows_congr _ _ hm).2.2.1).mpr h1
    have hg : (s._update st).vpnHandler.groups = s.vpnHandler.groups := by
      have := congrArg (fun p => p.2.2.2) hm
      simp only [VPNStatusIndicator.menuPart] at this
      rw [this, h2]
    exact ⟨⟨by rw [hg]; exact hsub, Or.inr (Or.inr hsc)⟩, fun h => Bool.noConfusion h,
      fun _ => hsc, hg⟩

theorem menuInv_of_reachable (s : VPNStatusIndicator) (h : MenuReachable s) : MenuInv s := by
  induction h with
  | initial groupsData =>
    refine ⟨?_, Or.inl ⟨rfl, rfl, rfl⟩⟩
    show (NordVPN.new.getGroups groupsData).groups.Sublist customGroups
    rw [getGroups_groups]
    exact List.filter_sublist _
  | update s st _ ih => exact (update_shows s st ih).1
  | other s t _ hst ih => exact ((shows_congr t s hst).2.2.2).mpr ih

/-- Rendering a disconnected status over the connect actions changes nothing
in the menu. -/
theorem update_disconnected_of_showsConnect (s : VPNStatusIndicator) (st : VPNStatus)
    (h : ShowsConnect s) (hc : st.connected = false) :
    (s._update st).menuPart = s.menuPart := by
  rw [(update_eq s st).2 hc]
  obtain ⟨h1, h2, -⟩ := h
  have hx := renderDisconnected_of_some_none
    { s with indicatorVisible := st.connected, itemLabel := "NordVPN ".toList ++ st.status }
    _ h2 h1
  rw [hx]
  rfl

theorem foldl_update_disconnected (sts : List VPNStatus) (s : VPNStatusIndicator)
    (h : ShowsConnect s) (hall : ∀ st ∈ sts, st.connected = false) :
    (sts.foldl VPNStatusIndicator._update s).menuPart = s.menuPart := by
  induction sts generalizing s with
  | nil => rfl
  | cons st sts ih =>
    have h1 := update_disconnected_of_showsConnect s st h (hall st (List.mem_cons_self _ _))
    have h2 : ShowsConnect (s._update st) := ((shows_congr _ _ h1).2.2.1).mpr h
    simp only [List.foldl_cons]
    rw [ih (s._update st) h2 (fun x hx => hall x (List.mem_cons_of_mem _ hx)), h1]

theorem connect_to_ne_connect (l : Str) : "Connect to ".toList ++ l ≠ "Connect".toList := by
  intro h
  have := congrArg List.length h
  simp at this

theorem length_filter_eq_of_nodup (l : List Str) (hn : l.Nodup) (a : Str) (ha : a ∈ l) :
    (l.filter (fun x => decide (x = a))).length = 1 := by
  induction l with
  | nil => cases ha
  | cons b l ih =>
    obtain ⟨hb, hl⟩ := List.nodup_cons.mp hn
    rw [List.filter_cons]
    by_cases hba : b = a
    · subst hba
      simp only [decide_True, if_true, List.length_cons, add_left_eq_self, List.length_eq_zero]
      rw [List.filter_eq_nil_iff]
      intro x hx
      simp only [decide_eq_true_eq]
      intro hxb
      exact hb (hxb ▸ hx)
    · simp only [hba, decide_False, Bool.false_eq_true, if_false]
      rcases List.mem_cons.mp ha with h | h
      · exact absurd h.symm hba
      · exact ih hl h

/-- Among the connect actions of a list of static groups there is one with the
label "Connect" and, for each of the groups, one with its "Connect to"
label. -/
theorem connectEntries_counts (groups : List Group) (hsub : groups.Sublist customGroups) :
    ((connectEntries groups).filter (fun e => decide (e.1 = "Connect".toList))).length = 1 ∧
      ∀ g ∈ groups,
        ((connectEntries groups).filter
          (fun e => decide (e.1 = "Connect to ".toList ++ g.label))).length = 1 := by
  have hnodup : (groups.map Group.label).Nodup :=
    (hsub.map Group.label).nodup (by decide)
  constructor
  · unfold connectEntries
    rw [List.filter_cons]
    simp only [decide_True, if_true, List.length_cons, add_left_eq_self, List.length_eq_zero]
    rw [List.filter_eq_nil_iff]
    intro e he
    obtain ⟨g, -, rfl⟩ := List.mem_map.mp he
    simp only [decide_eq_true_eq]
    exact connect_to_ne_connect g.label
  · intro g hg
    unfold connectEntries
    rw [List.filter_cons]
    have hne : ¬ "Connect".toList = "Connect to ".toList ++ g.label :=
      fun h => connect_to_ne_connect g.label h.symm
    simp only [hne, decide_False, Bool.false_eq_true, if_false]
    have hlen : ((groups.map Group.label).filter (fun x => decide (x = g.label))).length = 1 :=
      length_filter_eq_of_nodup _ hnodup _ (List.mem_map_of_mem Group.label hg)
    rw [List.filter_map, List.length_map] at hlen
    rw [List.filter_map, List.length_map, ← hlen]
    congr 1
    apply List.filter_congr
    intro x _
    simp only [Function.comp_apply]
    by_cases hx : x.label = g.label
    · simp [hx]
    · have : ¬ "Connect to ".toList ++ x.label = "Connect to ".toList ++ g.label :=
        fun h => hx (List.append_cancel_left h)
      simp [hx, this]

/-- C12. After every `_update(status)`, from every reachable prior state, the
action items of the menu match the status. If the status is connected, the
menu holds exactly one action, "Disconnect", which `_disconnectAction` names,
and no connect action. If it is not connected, the menu holds "Connect" and
one "Connect to <label>" per known group, in this order, which
`_connectAction` names, and no "Disconnect" action. So a connect action and the
disconnect action never coexist after a render. -/
theorem menu_matches_status_after_update (s : VPNStatusIndicator) (st : VPNStatus)
    (hs : MenuReachable s) :
    (st.connected = true →
      (s._update st).menuEntries = [("Disconnect".toList, Callback.disconnect)] ∧
      ((s._update st).actions.filter
        (fun item => decide (item.label = "Disconnect".toList))).length = 1 ∧
      (∀ item ∈ (s._update st).actions, item.callback = Callback.disconnect) ∧
      (∃ d, (s._update st)._disconnectAction = some d ∧
        (s._update st).actions.map MenuItem.id = [d]) ∧
      (s._update st)._connectAction = none) ∧
    (st.connected = false →
      (s._update st).menuEntries = connectEntries s.vpnHandler.groups ∧
      (s._update st).actions.length = 1 + s.vpnHandler.groups.length ∧
      (∀ item ∈ (s._update st).actions,
        item.label ≠ "Disconnect".toList ∧ item.callback ≠ Callback.disconnect) ∧
      (s._update st)._disconnectAction = none ∧
      (s._update st)._connectAction = some ((s._update st).actions.map MenuItem.id)) ∧
    ¬ ((∃ item ∈ (s._update st).actions, item.callback = Callback.disconnect) ∧
        (∃ item ∈ (s._update st).actions, item.callback ≠ Callback.disconnect)) := by
  obtain ⟨-, hconn, hdisc, hg⟩ := update_shows s st (menuInv_of_reachable s hs)
  have hA : st.connected = true →
      (s._update st).actions =
        [MenuItem.mk ((s._update st).actions.map MenuItem.id).head! "Disconnect".toList
          Callback.disconnect] ∧
      (∃ d, (s._update st)._disconnectAction = some d ∧
        (s._update st).actions.map MenuItem.id = [d]) ∧
      (s._update st)._connectAction = none := by
    intro hc
    obtain ⟨d, h1, h2, h3⟩ := hconn hc
    refine ⟨?_, ⟨d, h1, ?_⟩, h2⟩
    · rw [h3]; rfl
    · rw [h3]; rfl
  have hB : st.connected = false →
      ∀ item ∈ (s._update st).actions,
        item.label ≠ "Disconnect".toList ∧ item.callback ≠ Callback.disconnect := by
    intro hc item hitem
    obtain ⟨-, -, h3⟩ := hdisc hc
    have hmem : (item.label, item.callback) ∈ (s._update st).menuEntries :=
      List.mem_map_of_mem (fun item => (item.label, item.callback)) hitem
    rw [h3] at hmem
    unfold connectEntries at hmem
    rcases List.mem_cons.mp hmem with h | h
    · simp only [Prod.mk.injEq] at h
      rw [h.1, h.2]
      exact ⟨by decide, by decide⟩
    · obtain ⟨g, -, hg⟩ := List.mem_map.mp h
      simp only [Prod.mk.injEq] at hg
      rw [← hg.1, ← hg.2]
      refine ⟨?_, by simp⟩
      intro h
      have h0 := congrArg List.head? h
      simp at h0
  refine ⟨?_, ?_, ?_⟩
  · intro hc
    obtain ⟨h1, h2, h3⟩ := hA hc
    refine ⟨?_, ?_, ?_, h2, h3⟩
    · unfold VPNStatusIndicator.menuEntries
      rw [h1]; rfl
    · rw [h1]; rfl
    · intro item hitem
      rw [h1] at hitem
      simp only [List.mem_singleton] at hitem
      rw [hitem]
  · intro hc
    obtain ⟨h1, h2, h3⟩ := hdisc hc
    rw [hg] at h3
    refine ⟨h3, ?_, hB hc, h1, h2⟩
    have := congrArg List.length h3
    unfold VPNStatusIndicator.menuEntries connectEntries at this
    simp only [List.length_map, List.length_cons] at this
    omega
  · rintro ⟨⟨a, ha, hac⟩, ⟨b, hb, hbc⟩⟩
    cases hc : st.connected with
    | true =>
      obtain ⟨h1, -, -⟩ := hA hc
      rw [h1] at hb
      simp only [List.mem_singleton] at hb
      rw [hb] at hbc
      exact hbc rfl
    | false => exact (hB hc a ha).2 hac

theorem menu_matches_status_after_update_witness :
    MenuReachable ((constructed "P2P".toList)._update disconnectedStatus) ∧
      (((constructed "P2P".toList)._update disconnectedStatus)._update
        connectedStatus).menuEntries = [("Disconnect".toList, Callback.disconnect)] :=
  ⟨MenuReachable.update _ _ (MenuReachable.initial "P2P".toList),
    ((menu_matches_status_after_update
      ((constructed "P2P".toList)._update disconnectedStatus) connectedStatus
      (MenuReachable.update _ _ (MenuReachable.initial "P2P".toList))).1 rfl).1⟩

/-- C11. Rendering a disconnected status is idempotent on the menu. From every
reachable state (nothing rendered yet, after a connected render, after a
disconnected render), after `n ≥ 1` calls of `_update` with statuses that are
not connected, the menu holds "Connect" and one "Connect to <label>" per known
group and nothing else: exactly one action labelled "Connect", exactly one
labelled "Connect to <label>" for each known group, `1 + |groups|` actions in
all. A second such render changes neither the action items nor the handles:
the menu after two renders is the menu after one. -/
theorem render_disconnected_idempotent (s : VPNStatusIndicator) (sts : List VPNStatus)
    (hs : MenuReachable s) (hne : sts ≠ []) (hall : ∀ st ∈ sts, st.connected = false) :
    (sts.foldl VPNStatusIndicator._update s).menuEntries =
        connectEntries s.vpnHandler.groups ∧
      (sts.foldl VPNStatusIndicator._update s).actions.length =
        1 + s.vpnHandler.groups.length ∧
      ((sts.foldl VPNStatusIndicator._update s).menuEntries.filter
        (fun e => decide (e.1 = "Connect".toList))).length = 1 ∧
      (∀ g ∈ s.vpnHandler.groups,
        ((sts.foldl VPNStatusIndicator._update s).menuEntries.filter
          (fun e => decide (e.1 = "Connect to ".toList ++ g.label))).length = 1) ∧
      (∀ st1 st2 : VPNStatus, st1.connected = false → st2.connected = false →
        ((s._update st1)._update st2).menuPart = (s._update st1).menuPart ∧
        ((s._update st1)._update st2).actions = (s._update st1).actions) := by
  have hinv := menuInv_of_reachable s hs
  have hone : ∀ st1 : VPNStatus, st1.connected = false →
      ShowsConnect (s._update st1) ∧ (s._update st1).vpnHandler.groups = s.vpnHandler.groups :=
    fun st1 h1 => ⟨(update_shows s st1 hinv).2.2.1 h1, (update_shows s st1 hinv).2.2.2⟩
  have hentries : (sts.foldl VPNStatusIndicator._update s).menuEntries =
      connectEntries s.vpnHandler.groups := by
    cases sts with
    | nil => exact absurd rfl hne
    | cons st rest =>
      obtain ⟨hsc, hg⟩ := hone st (hall st (List.mem_cons_self _ _))
      have hm := foldl_update_disconnected rest (s._update st) hsc
        (fun x hx => hall x (List.mem_cons_of_mem _ hx))
      simp only [List.foldl_cons]
      have ha := congrArg (fun p => p.1) hm
      simp only [VPNStatusIndicator.menuPart] at ha
      unfold VPNStatusIndicator.menuEntries
      rw [ha]
      have := hsc.2.2
      unfold VPNStatusIndicator.menuEntries at this
      rw [this, hg]
  obtain ⟨c1, c2⟩ := connectEntries_counts s.vpnHandler.groups hinv.1
  refine ⟨hentries, ?_, ?_, ?_, ?_⟩
  · have := congrArg List.length hentries
    unfold VPNStatusIndicator.menuEntries connectEntries at this
    simp only [List.length_map, List.length_cons] at this
    omega
  · rw [hentries]; exact c1
  · intro g hg
    rw [hentries]; exact c2 g hg
  · intro st1 st2 h1 h2
    have hm := update_disconnected_of_showsConnect (s._update st1) st2 (hone st1 h1).1 h2
    refine ⟨hm, ?_⟩
    have ha := congrArg (fun p => p.1) hm
    simpa only [VPNStatusIndicator.menuPart] using ha

theorem render_disconnected_idempotent_witness :
    MenuReachable ((constructed "P2P,Double_VPN".toList)._update connectedStatus) ∧
      ([disconnectedStatus, disconnectedStatus].foldl VPNStatusIndicator._update
        ((constructed "P2P,Double_VPN".toList)._update connectedStatus)).menuEntries =
        connectEntries
          ((constructed "P2P,Double_VPN".toList)._update connectedStatus).vpnHandler.groups :=
  ⟨MenuReachable.update _ _ (MenuReachable.initial "P2P,Double_VPN".toList),
    (render_disconnected_idempotent
      ((constructed "P2P,Double_VPN".toList)._update connectedStatus)
      [disconnectedStatus, disconnectedStatus]
      (MenuReachable.update _ _ (MenuReachable.initial "P2P,Double_VPN".toList))
      (List.cons_ne_nil _ _) (by decide)).1⟩

/-! ## The states of a run are states in which the menu can be rendered -/

theorem menuPart_stopTimer (s : VPNStatusIndicator) : s.stopTimer.menuPart = s.menuPart := by
  obtain ⟨hd, hh, -⟩ := stopTimer_frame s
  simp only [VPNStatusIndicator.display, Prod.mk.injEq] at hd
  obtain ⟨-, -, -, -, h5, h6, h7⟩ := hd
  simp only [VPNStatusIndicator.menuPart, h5, h6, h7, hh]

theorem refresh_menuReachable (s next : VPNStatusIndicator) (data : Str)
    (hs : MenuReachable s) (h : s._refresh data = Except.ok next) : MenuReachable next := by
  obtain ⟨st, -, hr⟩ := refresh_eq s data
  rw [hr] at h
  cases h
  exact MenuReachable.other _ _
    (MenuReachable.update _ st (MenuReachable.other _ _ hs (menuPart_stopTimer s))) rfl

theorem step_menuReachable (s next : VPNStatusIndicator) (e : Event) (hs : MenuReachable s)
    (h : s.step e = Except.ok next) : MenuReachable next := by
  cases e with
  | refresh data => exact refresh_menuReachable s next data hs h
  | connect g =>
    cases h
    exact MenuReachable.other _ _ hs
      ((Eq.refl (s.stopTimer.menuPart)).trans (menuPart_stopTimer s))
  | disconnect =>
    cases h
    exact MenuReachable.other _ _ hs
      ((Eq.refl (s.stopTimer.menuPart)).trans (menuPart_stopTimer s))
  | destroy =>
    cases h
    exact MenuReachable.other _ _ hs
      ((Eq.refl (s.stopTimer.menuPart)).trans (menuPart_stopTimer s))
  | timerFired data =>
    have h' : s.timerFired data = Except.ok next := h
    unfold VPNStatusIndicator.timerFired at h'
    split at h'
    · cases h'
      exact hs
    · unfold VPNStatusIndicator.dispatch at h'
      split at h'
      · obtain ⟨st, -, hr⟩ := refresh_eq s data
        rw [hr] at h'
        cases h'
        exact MenuReachable.other _ _ (refresh_menuReachable s _ data hs hr) rfl
      · cases h'
        exact hs

/-- Every state of a run of the extension is a state in which the menu can be
rendered, and so is the state that `_refresh` hands to `_update`. -/
theorem run_menuReachable (groupsData statusData : Str) (events : List Event)
    (s : VPNStatusIndicator) (h : run groupsData statusData events = Except.ok s) :
    MenuReachable s ∧ MenuReachable s.stopTimer := by
  have hfrom : ∀ (es : List Event) (a b : VPNStatusIndicator), MenuReachable a →
      a.runFrom es = Except.ok b → MenuReachable b := by
    intro es
    induction es with
    | nil =>
      intro a b ha hab
      cases hab
      exact ha
    | cons e es ih =>
      intro a b ha hab
      have hab' : (a.step e >>= fun next => next.runFrom es) = Except.ok b := hab
      cases hstep : a.step e with
      | error err => rw [hstep] at hab'; cases hab'
      | ok next =>
        rw [hstep] at hab'
        exact ih next b (step_menuReachable a next e ha hstep) hab'
  have hrun : (VPNStatusIndicator.new.enable groupsData statusData >>=
      fun self => self.runFrom events) = Except.ok s := h
  cases hen : VPNStatusIndicator.new.enable groupsData statusData with
  | error err => rw [hen] at hrun; cases hrun
  | ok s0 =>
    rw [hen] at hrun
    have h0 : MenuReachable s0 :=
      refresh_menuReachable (constructed groupsData).resetTimer s0 statusData
        (MenuReachable.other _ _ (MenuReachable.initial groupsData) rfl) hen
    have hs := hfrom events s0 s h0 hrun
    exact ⟨hs, MenuReachable.other _ _ hs (menuPart_stopTimer s)⟩

end NordVPNStatus
